import Mathlib

/-!
# Verification of the Expense Tracker core

A shallow embedding of `expense_tracker.py` and `expense_tracker_gui.py`:
record validation (`datetime.strptime`, `float`), CSV persistence
(`csv.DictWriter` / `csv.DictReader` as used by the two scripts), and the
month/category aggregation, together with proofs of the specification
claims.

Python `float` values are embedded exactly as IEEE-754 binary64 data
(sign, 53-bit integer mantissa, power-of-two exponent) with
round-to-nearest, ties-to-even — the rounding CPython guarantees for
`float(str)`, `+` and `format(x, '.2f')`.
-/

namespace ExpenseTracker

/-! ## Characters, digits and decimal rendering -/

/-- The double-quote character (written via its code point). -/
def quoteChar : Char := Char.ofNat 34

def isAsciiDigit (c : Char) : Bool := decide ('0' ≤ c) && decide (c ≤ '9')

def digVal (c : Char) : Nat := c.toNat - '0'.toNat

def digitChar (n : Nat) : Char := Char.ofNat ('0'.toNat + n)

/-- Numeric value of a list of ASCII digit characters (most significant first). -/
def natOfDigits (l : List Char) : Nat := l.foldl (fun a c => 10 * a + digVal c) 0

/-- Fuel-driven digit extraction (structural recursion, so the kernel
can evaluate it inside proofs). -/
def natDigitsAux : Nat → Nat → List Char
  | 0, _ => []
  | f + 1, n =>
    if n < 10 then [digitChar n]
    else natDigitsAux f (n / 10) ++ [digitChar (n % 10)]

/-- Decimal rendering of a natural number, most significant digit first
(the rendering used by `str`/`%d`/glibc `%Y` for positive numbers). -/
def natDigits (n : Nat) : List Char := natDigitsAux (n + 1) n

/-- Two-digit zero-padded rendering (strftime `%m` / `%d`). -/
def pad2 (n : Nat) : List Char :=
  if n < 10 then ['0', digitChar n] else natDigits n

/-- Python `str.strip()` (ASCII whitespace; the inputs in question are ASCII). -/
def isPyWS (c : Char) : Bool :=
  c = ' ' || c = '\t' || c = '\n' || c = '\r' || c = Char.ofNat 11 || c = Char.ofNat 12

def stripList (l : List Char) : List Char :=
  (l.dropWhile isPyWS).reverse.dropWhile isPyWS |>.reverse

def pyStrip (s : String) : String := ⟨stripList s.data⟩

/-- Split a character list at every occurrence of the separator `sep`
(the fragments do not contain `sep`; `n` separators give `n+1` fragments). -/
def splitSep (sep : Char) : List Char → List (List Char)
  | [] => [[]]
  | c :: rest =>
    match splitSep sep rest with
    | [] => if c = sep then [[], []] else [[c]]
    | h :: t => if c = sep then [] :: h :: t else (c :: h) :: t

/-- Code-point lexicographic strict order on character lists
(Python `<` on `str`, the order used by `sorted`). -/
def lexLt : List Char → List Char → Bool
  | [], [] => false
  | [], _ :: _ => true
  | _ :: _, [] => false
  | a :: as, b :: bs =>
    if a.toNat < b.toNat then true
    else if b.toNat < a.toNat then false
    else lexLt as bs

/-! ## Binary64 floats, exactly

A finite Python float is `(-1)^neg * m * 2^e` with `m < 2^53`; the
canonical representation produced by all operations below has
`2^52 ≤ m` unless `e = -1074` (zero and subnormals). -/

inductive PyFloat where
  | fin (neg : Bool) (m : Nat) (e : Int)
  | inf (neg : Bool)
  | nan
deriving DecidableEq, Repr

/-- Positive zero (`float()`, the start value of every `defaultdict(float)` cell). -/
def pyZero : PyFloat := .fin false 0 (-1074)

/-- `2^e ≤ num/den` for an integer `e` and positive naturals. -/
def pow2LE (e : Int) (num den : Nat) : Bool :=
  if 0 ≤ e then den * 2 ^ e.toNat ≤ num else den ≤ num * 2 ^ (-e).toNat

/-- Fuel-driven base-2 logarithm (structural, kernel-evaluable);
`nlog2 n` is the unique `k` with `2^k ≤ n < 2^(k+1)` for `n ≥ 1`. -/
def nlog2Aux : Nat → Nat → Nat
  | 0, _ => 0
  | f + 1, n => if n ≤ 1 then 0 else nlog2Aux f (n / 2) + 1

def nlog2 (n : Nat) : Nat := nlog2Aux n n

/-- The unique `e` with `2^e ≤ num/den < 2^(e+1)` (for positive `num`, `den`). -/
def ilog2Rat (num den : Nat) : Int :=
  let e0 : Int := (nlog2 num : Int) - (nlog2 den : Int)
  if pow2LE e0 num den then e0 else e0 - 1

/-- Round `n / d` to the nearest integer, ties to even. -/
def rheDiv (n d : Nat) : Nat :=
  let q := n / d
  let r := n % d
  if 2 * r < d then q
  else if d < 2 * r then q + 1
  else if q % 2 = 0 then q else q + 1

/-- Round `(num/den) / 2^t` to the nearest integer, ties to even. -/
def scaleDiv (num den : Nat) (t : Int) : Nat :=
  if 0 ≤ t then rheDiv num (den * 2 ^ t.toNat) else rheDiv (num * 2 ^ (-t).toNat) den

/-- Round the nonnegative rational `num/den` to a binary64 value
(round to nearest, ties to even), as CPython does for every decimal
literal handed to `float` and for every arithmetic result. -/
def roundPos (num den : Nat) : PyFloat :=
  if num = 0 then .fin false 0 (-1074)
  else
    let t : Int := max (ilog2Rat num den - 52) (-1074)
    let m0 := scaleDiv num den t
    let m : Nat := if m0 = 2 ^ 53 then 2 ^ 52 else m0
    let e : Int := if m0 = 2 ^ 53 then t + 1 else t
    if 971 < e then .inf false else .fin false m e

/-- Attach a sign to a magnitude. -/
def withSign (neg : Bool) : PyFloat → PyFloat
  | .fin _ m e => .fin neg m e
  | .inf _ => .inf neg
  | .nan => .nan

/-- Round the dyadic `M * 2^e` (`M : Nat`) to binary64. -/
def roundDyadic (M : Nat) (e : Int) : PyFloat :=
  if 0 ≤ e then roundPos (M * 2 ^ e.toNat) 1 else roundPos M (2 ^ (-e).toNat)

/-- IEEE-754 binary64 addition in round-to-nearest-even — Python `+`
on floats.  The exact dyadic sum is formed and then rounded; a zero
result from nonzero operands (or from `(+0)+(−0)`) is `+0`.  Adding a
zero to a finite value returns that value unchanged (the IEEE-exact
case, written directly so that evaluation never forms `2^1074`). -/
def pyAdd : PyFloat → PyFloat → PyFloat
  | .nan, _ => .nan
  | _, .nan => .nan
  | .inf s, .inf t => if s = t then .inf s else .nan
  | .inf s, .fin _ _ _ => .inf s
  | .fin _ _ _, .inf t => .inf t
  | .fin s1 m1 e1, .fin s2 m2 e2 =>
    if m1 = 0 && m2 = 0 then .fin (s1 && s2) 0 (-1074)
    else if m1 = 0 then .fin s2 m2 e2
    else if m2 = 0 then .fin s1 m1 e1
    else
      let e := min e1 e2
      let M : Int := (if s1 then -(m1 : Int) else m1) * 2 ^ (e1 - e).toNat
                   + (if s2 then -(m2 : Int) else m2) * 2 ^ (e2 - e).toNat
      if M = 0 then .fin false 0 (-1074)
      else withSign (decide (M < 0)) (roundDyadic M.natAbs e)

/-! ## Python `float(string)` -/

/-- A digit group as accepted inside a Python float literal: digits with
single underscores strictly between digits (PEP 515).  `none` marks an
invalid group; an empty group is valid here (callers require at least
one digit somewhere). -/
def digitGroup : List Char → Option (List Char)
  | [] => some []
  | l =>
    let ok := l.head? ≠ some '_' && l.getLast? ≠ some '_'
      && l.all (fun c => isAsciiDigit c || c = '_')
      && (l.zip l.tail).all (fun p => !(p.1 = '_' && p.2 = '_'))
    if ok then some (l.filter isAsciiDigit) else none

/-- Parse an optional sign, returning `(negative, rest)`. -/
def parseSign : List Char → Bool × List Char
  | '-' :: rest => (true, rest)
  | '+' :: rest => (false, rest)
  | l => (false, l)

/-- Parse the exponent digits of a float literal (an optionally signed
underscore-grouped digit string), returning its integer value. -/
def parseExpPart (l : List Char) : Option Int := do
  let (neg, rest) := parseSign l
  let ds ← digitGroup rest
  if ds.isEmpty then none
  else some (if neg then -(natOfDigits ds : Int) else (natOfDigits ds : Int))

/-- Parse an unsigned decimal mantissa `intpart[.fracpart]`, returning
`(digits-as-integer, number-of-fraction-digits)`. -/
def parseMantissa (l : List Char) : Option (Nat × Nat) :=
  match splitSep '.' l with
  | [ip] => do
    let i ← digitGroup ip
    if i.isEmpty then none else some (natOfDigits i, 0)
  | [ip, fp] => do
    let i ← digitGroup ip
    let f ← digitGroup fp
    if i.isEmpty && f.isEmpty then none
    else some (natOfDigits i * 10 ^ f.length + natOfDigits f, f.length)
  | _ => none

/-- The value `sig * 10^pow10` rounded to binary64. -/
def decValue (sig : Nat) (pow10 : Int) : PyFloat :=
  if 0 ≤ pow10 then roundPos (sig * 10 ^ pow10.toNat) 1
  else roundPos sig (10 ^ (-pow10).toNat)

/-- Python `float(s)`: strips whitespace, accepts `inf`/`infinity`/`nan`
(case-insensitively) and decimal literals with optional exponent;
`none` models the `ValueError` raised otherwise. -/
def parsePyFloat (s : String) : Option PyFloat :=
  let l := (stripList s.data).map Char.toLower
  let (neg, body) := parseSign l
  if body = ['i', 'n', 'f'] || body = ['i', 'n', 'f', 'i', 'n', 'i', 't', 'y'] then
    some (.inf neg)
  else if body = ['n', 'a', 'n'] then
    some .nan
  else
    match splitSep 'e' body with
    | [mant] => do
      let (sig, fd) ← parseMantissa mant
      some (withSign neg (decValue sig (-(fd : Int))))
    | [mant, ex] => do
      let (sig, fd) ← parseMantissa mant
      let xv ← parseExpPart ex
      some (withSign neg (decValue sig (xv - fd)))
    | _ => none

/-! ## `format(x, '.2f')` -/

/-- `|x| * 100` rounded to the nearest integer, ties to even, for a
finite float `m * 2^e` — the correctly rounded scaling CPython's float
formatting performs for `.2f`. -/
def cents (m : Nat) (e : Int) : Nat :=
  if m = 0 then 0
  else if 0 ≤ e then 100 * m * 2 ^ e.toNat else rheDiv (100 * m) (2 ^ (-e).toNat)

/-- Python `f"{x:.2f}"`. -/
def fmt2 (x : PyFloat) : String :=
  match x with
  | .nan => "nan"
  | .inf neg => if neg then "-inf" else "inf"
  | .fin neg m e =>
    let k := cents m e
    let body := natDigits (k / 100) ++ '.' :: pad2 (k % 100)
    ⟨if neg then '-' :: body else body⟩

/-! ## Dates: `datetime.strptime(s, "%Y-%m-%d")` and `strftime`

CPython's `_strptime` matches `%Y` against exactly four digits, `%m`
against `1[0-2]|0[1-9]|[1-9]` and `%d` against `3[01]|[12]\d|0[1-9]|[1-9]`,
anchored between the literal dashes, then validates the calendar
(`datetime` requires `1 ≤ year ≤ 9999` and a real day of month). -/

structure PyDate where
  year : Nat
  month : Nat
  day : Nat
deriving DecidableEq, Repr

def isLeap (y : Nat) : Bool := y % 4 = 0 && (y % 100 ≠ 0 || y % 400 = 0)

def daysInMonth (y m : Nat) : Nat :=
  if m = 2 then (if isLeap y then 29 else 28)
  else if m = 4 || m = 6 || m = 9 || m = 11 then 30
  else 31

/-- The `%Y` directive: exactly four digits. -/
def yearTok (t : List Char) : Option Nat :=
  if t.length = 4 ∧ t.all isAsciiDigit then some (natOfDigits t) else none

/-- The `%m` directive: `1[0-2]|0[1-9]|[1-9]`. -/
def monthTok : List Char → Option Nat
  | [c] => if '1' ≤ c ∧ c ≤ '9' then some (digVal c) else none
  | [c1, c2] =>
    if c1 = '1' ∧ '0' ≤ c2 ∧ c2 ≤ '2' then some (10 + digVal c2)
    else if c1 = '0' ∧ '1' ≤ c2 ∧ c2 ≤ '9' then some (digVal c2)
    else none
  | _ => none

/-- The `%d` directive: `3[01]|[12]\d|0[1-9]|[1-9]`. -/
def dayTok : List Char → Option Nat
  | [c] => if '1' ≤ c ∧ c ≤ '9' then some (digVal c) else none
  | [c1, c2] =>
    if c1 = '3' ∧ '0' ≤ c2 ∧ c2 ≤ '1' then some (30 + digVal c2)
    else if ('1' ≤ c1 ∧ c1 ≤ '2') ∧ '0' ≤ c2 ∧ c2 ≤ '9' then
      some (10 * digVal c1 + digVal c2)
    else if c1 = '0' ∧ '1' ≤ c2 ∧ c2 ≤ '9' then some (digVal c2)
    else none
  | _ => none

/-- `datetime.strptime(s, "%Y-%m-%d")`; `none` models the `ValueError`. -/
def pyStrptimeDate (s : String) : Option PyDate :=
  match splitSep '-' s.data with
  | [ys, ms, ds] => do
    let y ← yearTok ys
    let m ← monthTok ms
    let d ← dayTok ds
    if 1 ≤ y ∧ 1 ≤ d ∧ d ≤ daysInMonth y m then some ⟨y, m, d⟩ else none
  | _ => none

/-- `datetime.strptime(s, "%Y-%m")`, as used before plotting. -/
def pyStrptimeMonth (s : String) : Option (Nat × Nat) :=
  match splitSep '-' s.data with
  | [ys, ms] => do
    let y ← yearTok ys
    let m ← monthTok ms
    if 1 ≤ y then some (y, m) else none
  | _ => none

/-- `date.strftime("%Y-%m-%d")` as it behaves where this program runs
(glibc): the year unpadded, month and day zero-padded to two digits. -/
def fmtDate (d : PyDate) : String :=
  ⟨natDigits d.year ++ '-' :: pad2 d.month ++ '-' :: pad2 d.day⟩

/-- `date.strftime("%Y-%m")`, the month grouping key. -/
def fmtMonth (d : PyDate) : String :=
  ⟨natDigits d.year ++ '-' :: pad2 d.month⟩

/-! ## The CSV layer (`csv.DictWriter` / `csv.DictReader`, default dialect) -/

def FIELDNAMES : List String := ["date", "amount", "category", "description"]

/-- Does QUOTE_MINIMAL quote this field?  (It contains the delimiter,
the quote character, or a line-terminator character.) -/
def quoteNeeded (s : String) : Bool :=
  s.data.any (fun c => c = ',' || c = quoteChar || c = '\r' || c = '\n')

/-- One field as the writer renders it: quoted with doubled inner
quotes when needed.  A lone empty field in a one-field row is also
quoted (the writer's disambiguation rule); rows here always have four
fields, but the rule is kept for fidelity. -/
def quoteField (s : String) : String :=
  if quoteNeeded s then
    ⟨quoteChar :: (s.data.foldr
      (fun c acc => if c = quoteChar then quoteChar :: quoteChar :: acc else c :: acc)
      [quoteChar])⟩
  else s

/-- `writer.writerow(fields)`: comma-joined, CRLF-terminated. -/
def writeRow (fields : List String) : String :=
  (String.intercalate "," (fields.map (fun f =>
    if fields.length = 1 && f = "" then ⟨[quoteChar, quoteChar]⟩ else quoteField f)))
    ++ "\r\n"

/-- `initialize_csv()`: create the file with the header row when it
does not exist; leave it untouched otherwise. -/
def initialize_csv (file : Option String) : Option String :=
  match file with
  | none => some (writeRow FIELDNAMES)
  | some c => some c

/-! ### The CSV reader

A transcription of `_csv.c`'s non-strict state machine: fields split on
commas, a leading quote opens a quoted field (doubled quotes inside are
literal, text after the closing quote is appended verbatim), records end
at LF or CRLF (a CR not followed by LF raises `_csv.Error`, which aborts
the read, keeping the rows already produced — `read_expenses` catches it
in its outer handler), and an empty line yields an empty record. -/

inductive CsvMode where
  | recStart
  | fieldStart
  | inField
  | inQuoted
deriving DecidableEq, Repr

/-- The reader loop.  `f` is the current field (reversed), `r` the
current record (reversed), `rows` the finished records (reversed).
An aborting CR drops the in-progress record, as the raised error does. -/
def csvRun : List Char → CsvMode → List Char → List String → List (List String) →
    List (List String)
  | [], .recStart, _, _, rows => rows.reverse
  | [], .fieldStart, f, r, rows => ((⟨f.reverse⟩ :: r).reverse :: rows).reverse
  | [], .inField, f, r, rows => ((⟨f.reverse⟩ :: r).reverse :: rows).reverse
  | [], .inQuoted, f, r, rows => ((⟨f.reverse⟩ :: r).reverse :: rows).reverse
  | '\n' :: cs, .recStart, _, _, rows => csvRun cs .recStart [] [] ([] :: rows)
  | '\r' :: '\n' :: cs, .recStart, _, _, rows => csvRun cs .recStart [] [] ([] :: rows)
  | ['\r'], .recStart, _, _, rows => ([] :: rows).reverse
  | '\r' :: _ :: _, .recStart, _, _, rows => rows.reverse
  | ',' :: cs, .recStart, _, _, rows => csvRun cs .fieldStart [] [""] rows
  | c :: cs, .recStart, _, _, rows =>
    if c = quoteChar then csvRun cs .inQuoted [] [] rows
    else csvRun cs .inField [c] [] rows
  | '\n' :: cs, .fieldStart, _, r, rows =>
    csvRun cs .recStart [] [] ((("" :: r).reverse) :: rows)
  | '\r' :: '\n' :: cs, .fieldStart, _, r, rows =>
    csvRun cs .recStart [] [] ((("" :: r).reverse) :: rows)
  | ['\r'], .fieldStart, _, r, rows => ((("" :: r).reverse) :: rows).reverse
  | '\r' :: _ :: _, .fieldStart, _, _, rows => rows.reverse
  | ',' :: cs, .fieldStart, _, r, rows => csvRun cs .fieldStart [] ("" :: r) rows
  | c :: cs, .fieldStart, _, r, rows =>
    if c = quoteChar then csvRun cs .inQuoted [] r rows
    else csvRun cs .inField [c] r rows
  | '\n' :: cs, .inField, f, r, rows =>
    csvRun cs .recStart [] [] (((⟨f.reverse⟩ :: r).reverse) :: rows)
  | '\r' :: '\n' :: cs, .inField, f, r, rows =>
    csvRun cs .recStart [] [] (((⟨f.reverse⟩ :: r).reverse) :: rows)
  | ['\r'], .inField, f, r, rows => (((⟨f.reverse⟩ :: r).reverse) :: rows).reverse
  | '\r' :: _ :: _, .inField, _, _, rows => rows.reverse
  | ',' :: cs, .inField, f, r, rows => csvRun cs .fieldStart [] (⟨f.reverse⟩ :: r) rows
  | c :: cs, .inField, f, r, rows => csvRun cs .inField (c :: f) r rows
  | c :: cs, .inQuoted, f, r, rows =>
    if c = quoteChar then
      match cs with
      | [] => (((⟨f.reverse⟩ :: r).reverse) :: rows).reverse
      | c2 :: cs2 =>
        if c2 = quoteChar then csvRun cs2 .inQuoted (quoteChar :: f) r rows
        else if c2 = ',' then csvRun cs2 .fieldStart [] (⟨f.reverse⟩ :: r) rows
        else if c2 = '\n' then
          csvRun cs2 .recStart [] [] (((⟨f.reverse⟩ :: r).reverse) :: rows)
        else if c2 = '\r' then
          match cs2 with
          | [] => (((⟨f.reverse⟩ :: r).reverse) :: rows).reverse
          | '\n' :: cs3 =>
            csvRun cs3 .recStart [] [] (((⟨f.reverse⟩ :: r).reverse) :: rows)
          | _ :: _ => rows.reverse
        else csvRun cs2 .inField (c2 :: f) r rows
    else csvRun cs .inQuoted (c :: f) r rows

/-- `csv.reader` over the whole file contents. -/
def parseCSV (s : String) : List (List String) :=
  csvRun s.data .recStart [] [] []

/-- A character that is neither a line terminator, the delimiter, nor
the quote character: the reader copies it into the current field
verbatim. -/
def plainChar (c : Char) : Prop :=
  c ≠ '\n' ∧ c ≠ '\r' ∧ c ≠ ',' ∧ c ≠ quoteChar

/-- The body of a quoted field as the writer escapes it: every quote
doubled (the fold of `quoteField`, without its closing-quote seed). -/
def escQuotes (l : List Char) : List Char :=
  l.foldr (fun c acc => if c = quoteChar then quoteChar :: quoteChar :: acc else c :: acc) []

/-! ## `DictReader` row access and `read_expenses` -/

/-- `DictReader` builds `dict(zip(fieldnames, row))`, then assigns
`restval = None` to every fieldname beyond the row's length; with
duplicate fieldnames the assignment at the largest index wins.
`dictGet` is `row[name]` on that dict: `none` is a `KeyError`,
`some none` is a present `None`. -/
def dictGet (header row : List String) (name : String) : Option (Option String) :=
  match (header.enum.filter (fun p => p.2 = name)).getLast? with
  | none => none
  | some (j, _) => some (row.get? j)

/-- An expense record as `read_expenses` returns it: the row dict with
`amount` replaced by the parsed float and `date` by the parsed datetime.
`category`/`description` are `none` when the column was absent
(`restval None`). -/
structure Expense where
  date : PyDate
  amount : PyFloat
  category : Option String
  description : Option String
deriving DecidableEq, Repr

/-- One iteration of the row loop in `read_expenses`: `float(row["amount"])`
then `strptime(row["date"], "%Y-%m-%d")`; any failure skips the row
(`DictReader` itself skips empty rows first). -/
def parseExpRow (header row : List String) : Option Expense :=
  if row = [] then none
  else
    match dictGet header row "amount" with
    | some (some aS) =>
      match parsePyFloat aS with
      | some a =>
        match dictGet header row "date" with
        | some (some dS) =>
          match pyStrptimeDate dS with
          | some d =>
            some ⟨d, a, (dictGet header row "category").bind id,
                  (dictGet header row "description").bind id⟩
          | none => none
        | _ => none
      | none => none
    | _ => none

/-- `read_expenses()`: empty when the file does not exist; otherwise the
first CSV record is the fieldnames and each further record is parsed
tolerantly, malformed rows skipped. -/
def read_expenses (file : Option String) : List Expense :=
  match file with
  | none => []
  | some content =>
    match parseCSV content with
    | [] => []
    | header :: rows => rows.filterMap (parseExpRow header)

/-! ## Adding an expense -/

/-- The row `add_expense` writes for a validated record. -/
def expenseRow (d : PyDate) (a : PyFloat) (category description : String) : String :=
  writeRow [fmtDate d, fmt2 a, category, description]

inductive CliAddOutcome where
  | ok (newFile : String)
  | invalidInput
deriving DecidableEq, Repr

/-- CLI `add_expense()`: strips each input, validates the date with
`strptime` and the amount with `float` (any `ValueError` prints one
"Invalid input" message), and appends the formatted row.  The category
is only stripped — never checked.  Append mode creates the file when
missing. -/
def add_expense (file : Option String)
    (rawDate rawAmount rawCategory rawDescription : String) : CliAddOutcome :=
  match pyStrptimeDate (pyStrip rawDate) with
  | none => .invalidInput
  | some d =>
    match parsePyFloat (pyStrip rawAmount) with
    | none => .invalidInput
    | some a =>
      .ok (file.getD "" ++ expenseRow d a (pyStrip rawCategory) (pyStrip rawDescription))

inductive GuiAddOutcome where
  | ok (newFile : String)
  | invalidDate
  | invalidAmount
  | invalidCategory
deriving DecidableEq, Repr

/-- GUI `ExpenseTrackerApp.add_expense`: the same validation, but with a
distinct error box per failure, and a third check rejecting an empty
(stripped) category. -/
def gui_add_expense (file : Option String)
    (rawDate rawAmount rawCategory rawDescription : String) : GuiAddOutcome :=
  match pyStrptimeDate (pyStrip rawDate) with
  | none => .invalidDate
  | some d =>
    match parsePyFloat (pyStrip rawAmount) with
    | none => .invalidAmount
    | some a =>
      if pyStrip rawCategory = "" then .invalidCategory
      else .ok (file.getD "" ++ expenseRow d a (pyStrip rawCategory) (pyStrip rawDescription))

/-! ## Aggregation: `monthly_totals` and the plot filter -/

/-- Add `amt` to `inner[cat]`, where `inner` is a Python dict in
insertion order and a missing key starts at `float()` (= `+0.0`). -/
def innerUpdate (inner : List (Option String × PyFloat)) (cat : Option String)
    (amt : PyFloat) : List (Option String × PyFloat) :=
  match inner with
  | [] => [(cat, pyAdd pyZero amt)]
  | (c, v) :: t =>
    if c = cat then (c, pyAdd v amt) :: t else (c, v) :: innerUpdate t cat amt

/-- `totals[month][category] += amount` on the outer defaultdict. -/
def outerUpdate (tbl : List (String × List (Option String × PyFloat)))
    (mon : String) (cat : Option String) (amt : PyFloat) :
    List (String × List (Option String × PyFloat)) :=
  match tbl with
  | [] => [(mon, innerUpdate [] cat amt)]
  | (m, inner) :: t =>
    if m = mon then (m, innerUpdate inner cat amt) :: t
    else (m, inner) :: outerUpdate t mon cat amt

/-- The `totals` table of `monthly_totals` (both front ends build it
identically): grouped by `date.strftime("%Y-%m")`, then by category. -/
def monthly_totals_table (recs : List Expense) :
    List (String × List (Option String × PyFloat)) :=
  recs.foldl (fun acc e => outerUpdate acc (fmtMonth e.date) e.category e.amount) []

/-- Insert into a list kept in ascending code-point order (`sorted`). -/
def sortInsert (s : String) : List String → List String
  | [] => [s]
  | h :: t => if lexLt h.data s.data then h :: sortInsert s t else s :: h :: t

/-- Python `sorted` on the month keys. -/
def sortStrs (l : List String) : List String := l.foldr sortInsert []

/-- The display order of `monthly_totals`: months in sorted order, each
with its category list in first-insertion order. -/
def monthly_totals_display (recs : List Expense) :
    List (String × List (Option String × PyFloat)) :=
  let tbl := monthly_totals_table recs
  (sortStrs (tbl.map (·.1))).map
    (fun m => (m, ((tbl.find? (fun p => p.1 = m)).map (·.2)).getD []))

/-- The month filter in `plot_expenses`:
`[exp for exp in expenses if exp["date"].strftime("%Y-%m") == month_input]`. -/
def filterMonth (recs : List Expense) (key : String) : List Expense :=
  recs.filter (fun e => fmtMonth e.date = key)

/-! ## Derived descriptions used in the claim statements -/

/-- The condition under which `read_expenses` keeps a data row: the row
is not blank, its `amount` entry exists and parses as a float, and its
`date` entry exists and parses as a date. -/
def rowKept (header row : List String) : Bool :=
  !row.isEmpty
    && (match dictGet header row "amount" with
        | some (some s) => (parsePyFloat s).isSome
        | _ => false)
    && (match dictGet header row "date" with
        | some (some s) => (pyStrptimeDate s).isSome
        | _ => false)

/-- The record built from a kept row. -/
def mkExpense (header row : List String) : Expense :=
  { date := (pyStrptimeDate (((dictGet header row "date").bind id).getD "")).getD ⟨1, 1, 1⟩
    amount := (parsePyFloat (((dictGet header row "amount").bind id).getD "")).getD .nan
    category := (dictGet header row "category").bind id
    description := (dictGet header row "description").bind id }

/-- First-occurrence deduplication, preserving encounter order (the
order in which Python dict keys are created). -/
def dedupFirst (l : List (Option String)) : List (Option String) :=
  l.foldl (fun acc x => if x ∈ acc then acc else acc ++ [x]) []

/-- The categories of the records of month `m`, in record order. -/
def catsOf (m : String) (recs : List Expense) : List (Option String) :=
  (recs.filter (fun e => fmtMonth e.date = m)).map (·.category)

/-- Zero-padded `YYYY-MM-DD` as the specification's words describe the
rendered date (four year digits); compared against the `strftime`
rendering the code actually produces. -/
def specDateYYYYMMDD (d : PyDate) : String :=
  ⟨(List.replicate (4 - (natDigits d.year).length) '0' ++ natDigits d.year)
    ++ '-' :: pad2 d.month ++ '-' :: pad2 d.day⟩

/-- The sample records of the specification's aggregation example. -/
def sampleRecs : List Expense :=
  [⟨⟨2024, 1, 15⟩, roundPos 10 1, some "Food", some ""⟩,
   ⟨⟨2024, 1, 20⟩, roundPos 55 10, some "Food", some ""⟩,
   ⟨⟨2024, 2, 1⟩, roundPos 3 1, some "Transport", some ""⟩]

/-! ## Basic behavioural lemmas -/


/-! ## Auxiliary definitions for the proofs -/

/-- The categories (in stored order) of month `m` in a totals table. -/
def innerKeysAt (tbl : List (String × List (Option String × PyFloat))) (m : String) :
    List (Option String) :=
  (((tbl.find? (fun p => p.1 = m)).map (·.2)).getD []).map Prod.fst

/-- `addCats ks cs` adds the categories `cs` to the key list `ks` in
first-encounter order (the effect of repeated `dict` insertion). -/
def addCats (ks cs : List (Option String)) : List (Option String) :=
  cs.foldl (fun acc x => if x ∈ acc then acc else acc ++ [x]) ks

def qpow2 (e : Int) : ℚ := 2 ^ e

/-- The exact rational value of a float (0 for `inf`/`nan`, which never
feed the value-level lemmas). -/
def pyVal : PyFloat → ℚ
  | .fin neg m e => (if neg then -1 else 1) * m * qpow2 e
  | _ => 0

/-- The rounding grid exponent used by `roundPos`. -/
def gridExp (num den : Nat) : Int := max (ilog2Rat num den - 52) (-1074)

/-- The binary64 value of `0.1` (and of `float("0.10")`):
`7205759403792794 * 2^(-56)`. -/
abbrev tenth : PyFloat := .fin false 7205759403792794 (-56)

/-- `acc + x + x + ⋯` with `n` additions — the value a
`totals[month][category]` cell takes after `n` records of amount `x`
are folded in. -/
def pySumN : Nat → PyFloat → PyFloat → PyFloat
  | 0, _, acc => acc
  | n + 1, x, acc => pySumN n x (pyAdd acc x)

instance (c : Char) : Decidable (plainChar c) := by
  unfold plainChar; infer_instance

/-- One record as `read_expenses` returns it for the CSV row
`2024-01-15,0.10,Food,` — the amount is `float("0.10")`. -/
def sumRec : Expense :=
  ⟨⟨2024, 1, 15⟩, (parsePyFloat "0.10").getD .nan, some "Food", some ""⟩


lemma parseExpRow_eq (header row : List String) :
    parseExpRow header row =
      if rowKept header row then some (mkExpense header row) else none := by
  unfold parseExpRow rowKept mkExpense
  by_cases hr : row = []
  · simp [hr]
  · simp only [hr, if_false, List.isEmpty_eq_true, Bool.not_eq_true']
    cases ha : dictGet header row "amount" with
    | none => simp [ha, hr, List.isEmpty_iff]
    | some oa =>
      cases oa with
      | none => simp [ha, hr, List.isEmpty_iff]
      | some aS =>
        cases hpa : parsePyFloat aS with
        | none => simp [ha, hpa, hr, List.isEmpty_iff]
        | some a =>
          cases hd : dictGet header row "date" with
          | none => simp [ha, hpa, hd, hr, List.isEmpty_iff]
          | some od =>
            cases od with
            | none => simp [ha, hpa, hd, hr, List.isEmpty_iff]
            | some dS =>
              cases hpd : pyStrptimeDate dS with
              | none => simp [ha, hpa, hd, hpd, hr, List.isEmpty_iff]
              | some d => simp [ha, hpa, hd, hpd, hr, List.isEmpty_iff]

lemma filterMap_ite_eq_filter_map {α β : Type} (l : List α) (p : α → Bool) (f : α → β) :
    l.filterMap (fun x => if p x then some (f x) else none) = (l.filter p).map f := by
  induction l with
  | nil => rfl
  | cons x xs ih =>
    by_cases hx : p x <;> simp [List.filterMap_cons, List.filter_cons, hx, ih]

/-! ## Claim C7 — `initialize_csv` -/

/-- C7: `initialize_csv` creates the file with exactly the four-column
header row (and nothing else) when the file does not exist, and leaves
an existing file completely unchanged. -/
theorem initialize_csv_creates_header_else_noop :
    initialize_csv none = some "date,amount,category,description\r\n"
    ∧ ∀ c : String, initialize_csv (some c) = some c := by
  exact ⟨rfl, fun _ => rfl⟩

/-! ## Claim C8 — `read_expenses` on a missing file -/

/-- C8: reading a non-existent backing file yields the empty record
sequence rather than an error. -/
theorem read_expenses_missing_file : read_expenses none = [] := rfl

/-! ## Claim C1 — what gets persisted -/

/-- C1 counterexample: the CLI `add_expense` appends a row whose
category is empty after trimming, and the GUI `add_expense` appends a
row whose amount `"inf"` is not finite — so "persisted only if the
category is non-empty and the amount is finite" is false as stated. -/
theorem add_expense_persists_invalid_inputs :
    add_expense (some "date,amount,category,description\r\n") "2024-01-01" "5" "" "x"
      = .ok "date,amount,category,description\r\n2024-01-01,5.00,,x\r\n"
    ∧ gui_add_expense (some "date,amount,category,description\r\n") "2024-01-01" "inf" "Food" ""
      = .ok "date,amount,category,description\r\n2024-01-01,inf,Food,\r\n" := by
  exact ⟨rfl, rfl⟩

/-- C1 amended: a record is appended exactly when the stripped date
parses under `%Y-%m-%d` and the stripped amount parses under `float`
(finite or not); only the GUI additionally requires the stripped
category to be non-empty, the CLI persists any category.  Failing
inputs produce no write (the functions return an error outcome and no
new file contents). -/
theorem add_expense_validation_characterization :
    ∀ (file : Option String) (rawDate rawAmount rawCategory rawDescription : String),
      ((∃ s, add_expense file rawDate rawAmount rawCategory rawDescription = .ok s) ↔
        ((pyStrptimeDate (pyStrip rawDate)).isSome
          ∧ (parsePyFloat (pyStrip rawAmount)).isSome))
      ∧ ((∃ s, gui_add_expense file rawDate rawAmount rawCategory rawDescription = .ok s) ↔
        ((pyStrptimeDate (pyStrip rawDate)).isSome
          ∧ (parsePyFloat (pyStrip rawAmount)).isSome
          ∧ pyStrip rawCategory ≠ "")) := by
  intro file rawDate rawAmount rawCategory rawDescription
  constructor
  · unfold add_expense
    cases h1 : pyStrptimeDate (pyStrip rawDate) with
    | none => simp [h1]
    | some d =>
      cases h2 : parsePyFloat (pyStrip rawAmount) with
      | none => simp [h2]
      | some a => simp [h2]
  · unfold gui_add_expense
    cases h1 : pyStrptimeDate (pyStrip rawDate) with
    | none => simp [h1]
    | some d =>
      cases h2 : parsePyFloat (pyStrip rawAmount) with
      | none => simp [h2]
      | some a =>
        by_cases h3 : pyStrip rawCategory = "" <;> simp [h2, h3]

/-! ## Claim C2 — the three rejections -/

/-- C2 counterexample: the CLI validation does not reject the empty
category at all (the row is appended), so the program does not reject
each of the three bad inputs with its own distinct error kind. -/
theorem cli_accepts_empty_category :
    add_expense (some "date,amount,category,description\r\n") "2024-01-01" "1" "" ""
      = .ok "date,amount,category,description\r\n2024-01-01,1.00,,\r\n" := rfl

/-- C2 amended: the GUI rejects date `"2024-02-30"`, amount `"abc"` and
the empty category with three pairwise distinct error kinds; the CLI
rejects the first two with its single invalid-input kind and accepts
the empty category. -/
theorem validation_rejections_by_front_end :
    ∀ file : Option String,
      gui_add_expense file "2024-02-30" "1" "Food" "" = .invalidDate
      ∧ gui_add_expense file "2024-01-01" "abc" "Food" "" = .invalidAmount
      ∧ gui_add_expense file "2024-01-01" "1" "" "" = .invalidCategory
      ∧ (GuiAddOutcome.invalidDate ≠ GuiAddOutcome.invalidAmount
         ∧ GuiAddOutcome.invalidAmount ≠ GuiAddOutcome.invalidCategory
         ∧ GuiAddOutcome.invalidDate ≠ GuiAddOutcome.invalidCategory)
      ∧ add_expense file "2024-02-30" "1" "Food" "" = .invalidInput
      ∧ add_expense file "2024-01-01" "abc" "Food" "" = .invalidInput
      ∧ (∃ s, add_expense file "2024-01-01" "1" "" "" = .ok s) := by
  intro file
  refine ⟨rfl, rfl, rfl, ⟨by decide, by decide, by decide⟩, rfl, rfl, ⟨_, rfl⟩⟩

/-! ## Claim C5 — the aggregation example -/

set_option maxRecDepth 40000 in
/-- C5: `monthly_totals` over the three sample records produces exactly
the nested mapping `{"2024-01": {"Food": 15.50}, "2024-02":
{"Transport": 3.00}}`, the month key being the date truncated to
year and month. -/
theorem monthly_totals_sample :
    monthly_totals_table sampleRecs
      = [("2024-01", [(some "Food", roundPos 155 10)]),
         ("2024-02", [(some "Transport", roundPos 3 1)])]
    ∧ fmtMonth ⟨2024, 1, 15⟩ = "2024-01" ∧ fmtMonth ⟨2024, 2, 1⟩ = "2024-02" := by
  exact ⟨by decide, rfl, rfl⟩

/-! ## Claim C3 — tolerant reading -/

/-- C3 counterexample: a data row with the wrong column count (three
columns instead of four) is not skipped: `read_expenses` returns it,
with the missing `description` as `None`. -/
theorem read_expenses_keeps_wrong_column_count :
    read_expenses (some "date,amount,category,description\r\n2024-01-01,5.00,Food\r\n")
      = [⟨⟨2024, 1, 1⟩, roundPos 5 1, some "Food", none⟩]
    ∧ read_expenses (some "date,amount,category,description\r\n2024-01-01,5.00,Food\r\n")
      ≠ [] := by
  exact ⟨by decide, by decide⟩

/-- C3 amended: `read_expenses` keeps exactly the rows whose `amount`
entry parses as a float and whose `date` entry parses as a date
(missing `category`/`description` columns are kept as `None`; column
count itself is irrelevant), in file order; in particular a file with
one well-formed row and one row with a non-numeric amount yields
exactly the well-formed record, without failing. -/
theorem read_expenses_skip_policy :
    (∀ (content : String) (header : List String) (rows : List (List String)),
      parseCSV content = header :: rows →
      read_expenses (some content) = (rows.filter (rowKept header)).map (mkExpense header))
    ∧ read_expenses
        (some "date,amount,category,description\r\n2024-01-15,10.00,Food,lunch\r\n2024-01-16,abc,Food,bad\r\n")
      = [⟨⟨2024, 1, 15⟩, roundPos 10 1, some "Food", some "lunch"⟩] := by
  constructor
  · intro content header rows h
    show (match parseCSV content with
      | [] => []
      | header :: rows => rows.filterMap (parseExpRow header)) = _
    rw [h]
    show rows.filterMap (parseExpRow header) = _
    have hfun : parseExpRow header = fun row =>
        if rowKept header row then some (mkExpense header row) else none := by
      funext row; exact parseExpRow_eq header row
    rw [hfun, filterMap_ite_eq_filter_map]
  · decide

/-- Witness for the universally quantified part of the amended C3: the
characterization applied to a concrete two-row file. -/
theorem read_expenses_skip_policy_witness :
    read_expenses (some "date,amount,category,description\r\n2024-01-01,7,Food,x\r\n")
      = ([["2024-01-01", "7", "Food", "x"]].filter (rowKept FIELDNAMES)).map
          (mkExpense FIELDNAMES) :=
  read_expenses_skip_policy.1
    "date,amount,category,description\r\n2024-01-01,7,Food,x\r\n"
    FIELDNAMES [["2024-01-01", "7", "Food", "x"]] (by decide)

/-! ## Decimal rendering lemmas -/

lemma digitChar_toNat : ∀ n : Nat, n < 10 → (digitChar n).toNat = 48 + n := by decide

lemma isAsciiDigit_digitChar : ∀ n : Nat, n < 10 → isAsciiDigit (digitChar n) = true := by
  decide

lemma digVal_digitChar : ∀ n : Nat, n < 10 → digVal (digitChar n) = n := by decide

lemma natDigitsAux_digits {f n : Nat} {c : Char} (hc : c ∈ natDigitsAux f n) :
    isAsciiDigit c = true := by
  induction f generalizing n with
  | zero => simp [natDigitsAux] at hc
  | succ f ih =>
    unfold natDigitsAux at hc
    by_cases hn : n < 10
    · simp [hn] at hc
      subst hc
      exact isAsciiDigit_digitChar n hn
    · simp [hn] at hc
      rcases hc with hc | hc
      · exact ih hc
      · subst hc
        exact isAsciiDigit_digitChar _ (Nat.mod_lt _ (by omega))

lemma natDigits_digits {n : Nat} {c : Char} (hc : c ∈ natDigits n) :
    isAsciiDigit c = true := natDigitsAux_digits hc

lemma pad2_digits {n : Nat} {c : Char} (hc : c ∈ pad2 n) : isAsciiDigit c = true := by
  unfold pad2 at hc
  by_cases hn : n < 10
  · simp [hn] at hc
    rcases hc with hc | hc <;> subst hc
    · decide
    · exact isAsciiDigit_digitChar n hn
  · simp [hn] at hc
    exact natDigits_digits hc

lemma natOfDigits_one (c : Char) : natOfDigits [c] = digVal c := by
  simp [natOfDigits]

lemma natOfDigits_two (a b : Char) : natOfDigits [a, b] = 10 * digVal a + digVal b := by
  simp [natOfDigits]

lemma natOfDigits_append (a b : List Char) :
    natOfDigits (a ++ b) = natOfDigits b + natOfDigits a * 10 ^ b.length := by
  unfold natOfDigits
  induction b using List.reverseRecOn with
  | nil => simp
  | append_singleton bs c ih =>
    rw [← List.append_assoc]
    rw [List.foldl_append, ih]
    conv_rhs => rw [List.foldl_append]
    simp [List.length_append]
    ring

lemma natOfDigits_natDigitsAux {f n : Nat} (h : n < f) :
    natOfDigits (natDigitsAux f n) = n := by
  induction f generalizing n with
  | zero => omega
  | succ f ih =>
    unfold natDigitsAux
    by_cases hn : n < 10
    · simp [hn, natOfDigits, digVal_digitChar n hn]
    · simp only [hn, if_false]
      rw [natOfDigits_append]
      have hrec : natOfDigits (natDigitsAux f (n / 10)) = n / 10 :=
        ih (by omega)
      rw [hrec]
      simp [natOfDigits, digVal_digitChar _ (Nat.mod_lt n (by omega))]
      omega

lemma natOfDigits_natDigits (n : Nat) : natOfDigits (natDigits n) = n :=
  natOfDigits_natDigitsAux (Nat.lt_succ_self n)

lemma natOfDigits_pad2 (n : Nat) : natOfDigits (pad2 n) = n := by
  by_cases hn : n < 10
  · rw [show pad2 n = ['0', digitChar n] from by simp [pad2, hn]]
    rw [natOfDigits_two, digVal_digitChar n hn]
    norm_num [digVal]
  · rw [show pad2 n = natDigits n from by simp [pad2, hn]]
    exact natOfDigits_natDigits n

/-! ## `splitSep` lemmas -/

lemma splitSep_cons (sep c : Char) (rest : List Char) :
    splitSep sep (c :: rest) =
      match splitSep sep rest with
      | [] => if c = sep then [[], []] else [[c]]
      | h :: t => if c = sep then [] :: h :: t else (c :: h) :: t := rfl

lemma splitSep_ne_nil (sep : Char) (l : List Char) : splitSep sep l ≠ [] := by
  cases l with
  | nil => simp [splitSep]
  | cons c rest =>
    rw [splitSep_cons]
    cases hsr : splitSep sep rest with
    | nil => by_cases hc : c = sep <;> simp [hc]
    | cons x t => by_cases hc : c = sep <;> simp [hc]

lemma splitSep_no_sep {sep : Char} {l : List Char} (h : sep ∉ l) :
    splitSep sep l = [l] := by
  induction l with
  | nil => rfl
  | cons c rest ih =>
    have hc : c ≠ sep := fun hcs => h (hcs ▸ List.mem_cons_self c rest)
    have hr : sep ∉ rest := fun hm => h (List.mem_cons_of_mem c hm)
    rw [splitSep_cons, ih hr]
    simp [hc]

lemma splitSep_append {sep : Char} {a : List Char} (b : List Char) (h : sep ∉ a) :
    splitSep sep (a ++ sep :: b) = a :: splitSep sep b := by
  induction a with
  | nil =>
    show splitSep sep (sep :: b) = [] :: splitSep sep b
    rw [splitSep_cons]
    cases hb : splitSep sep b with
    | nil => exact absurd hb (splitSep_ne_nil sep b)
    | cons x t => simp
  | cons c rest ih =>
    have hc : c ≠ sep := fun hcs => h (hcs ▸ List.mem_cons_self c rest)
    have hr : sep ∉ rest := fun hm => h (List.mem_cons_of_mem c hm)
    show splitSep sep (c :: (rest ++ sep :: b)) = (c :: rest) :: splitSep sep b
    rw [splitSep_cons, ih hr]
    simp [hc]

lemma dash_not_mem_natDigits (n : Nat) : '-' ∉ natDigits n := by
  intro h
  have := natDigits_digits h
  simp [isAsciiDigit] at this

lemma dash_not_mem_pad2 (n : Nat) : '-' ∉ pad2 n := by
  intro h
  have := pad2_digits h
  simp [isAsciiDigit] at this

/-! ## Token-value lemmas for the strptime directives -/

lemma yearTok_val {l : List Char} {y : Nat} (h : yearTok l = some y) :
    natOfDigits l = y ∧ l.length = 4 := by
  unfold yearTok at h
  by_cases hc : l.length = 4 ∧ l.all isAsciiDigit
  · rw [if_pos hc] at h
    exact ⟨by injection h, hc.1⟩
  · rw [if_neg hc] at h; cases h

lemma monthTok_one_val {c : Char} {m : Nat} (h : monthTok [c] = some m) :
    natOfDigits [c] = m := by
  rw [show monthTok [c]
      = if '1' ≤ c ∧ c ≤ '9' then some (digVal c) else none from rfl] at h
  by_cases hc : '1' ≤ c ∧ c ≤ '9'
  · rw [if_pos hc] at h
    injection h with h
    rw [natOfDigits_one, h]
  · rw [if_neg hc] at h; cases h

lemma monthTok_two_val {c1 c2 : Char} {m : Nat} (h : monthTok [c1, c2] = some m) :
    natOfDigits [c1, c2] = m := by
  rw [show monthTok [c1, c2]
      = (if c1 = '1' ∧ '0' ≤ c2 ∧ c2 ≤ '2' then some (10 + digVal c2)
         else if c1 = '0' ∧ '1' ≤ c2 ∧ c2 ≤ '9' then some (digVal c2)
         else none) from rfl] at h
  by_cases h1 : c1 = '1' ∧ '0' ≤ c2 ∧ c2 ≤ '2'
  · rw [if_pos h1] at h
    injection h with h
    rw [natOfDigits_two, h1.1, show digVal '1' = 1 from by decide, ← h]
  · rw [if_neg h1] at h
    by_cases h2 : c1 = '0' ∧ '1' ≤ c2 ∧ c2 ≤ '9'
    · rw [if_pos h2] at h
      injection h with h
      rw [natOfDigits_two, h2.1, show digVal '0' = 0 from by decide, ← h]
      omega
    · rw [if_neg h2] at h; cases h

lemma monthTok_val {l : List Char} {m : Nat} (h : monthTok l = some m) :
    natOfDigits l = m := by
  match l with
  | [] => cases h
  | [c] => exact monthTok_one_val h
  | [c1, c2] => exact monthTok_two_val h
  | _ :: _ :: _ :: _ => cases h

lemma dayTok_one_val {c : Char} {d : Nat} (h : dayTok [c] = some d) :
    natOfDigits [c] = d := by
  rw [show dayTok [c]
      = if '1' ≤ c ∧ c ≤ '9' then some (digVal c) else none from rfl] at h
  by_cases hc : '1' ≤ c ∧ c ≤ '9'
  · rw [if_pos hc] at h
    injection h with h
    rw [natOfDigits_one, h]
  · rw [if_neg hc] at h; cases h

lemma dayTok_two_val {c1 c2 : Char} {d : Nat} (h : dayTok [c1, c2] = some d) :
    natOfDigits [c1, c2] = d := by
  rw [show dayTok [c1, c2]
      = (if c1 = '3' ∧ '0' ≤ c2 ∧ c2 ≤ '1' then some (30 + digVal c2)
         else if ('1' ≤ c1 ∧ c1 ≤ '2') ∧ '0' ≤ c2 ∧ c2 ≤ '9' then
           some (10 * digVal c1 + digVal c2)
         else if c1 = '0' ∧ '1' ≤ c2 ∧ c2 ≤ '9' then some (digVal c2)
         else none) from rfl] at h
  by_cases h1 : c1 = '3' ∧ '0' ≤ c2 ∧ c2 ≤ '1'
  · rw [if_pos h1] at h
    injection h with h
    rw [natOfDigits_two, h1.1, show digVal '3' = 3 from by decide, ← h]
  · rw [if_neg h1] at h
    by_cases h2 : ('1' ≤ c1 ∧ c1 ≤ '2') ∧ '0' ≤ c2 ∧ c2 ≤ '9'
    · rw [if_pos h2] at h
      injection h with h
      rw [natOfDigits_two, h]
    · rw [if_neg h2] at h
      by_cases h3 : c1 = '0' ∧ '1' ≤ c2 ∧ c2 ≤ '9'
      · rw [if_pos h3] at h
        injection h with h
        rw [natOfDigits_two, h3.1, show digVal '0' = 0 from by decide, ← h]
        omega
      · rw [if_neg h3] at h; cases h

lemma dayTok_val {l : List Char} {d : Nat} (h : dayTok l = some d) :
    natOfDigits l = d := by
  match l with
  | [] => cases h
  | [c] => exact dayTok_one_val h
  | [c1, c2] => exact dayTok_two_val h
  | _ :: _ :: _ :: _ => cases h

/-! ## Claim C10 — a non-canonical month key matches nothing -/

lemma pyStrptimeMonth_fmtMonth_inv {dt : PyDate} {y m : Nat}
    (h : pyStrptimeMonth (fmtMonth dt) = some (y, m)) :
    y = dt.year ∧ m = dt.month := by
  unfold pyStrptimeMonth fmtMonth at h
  rw [show (String.mk (natDigits dt.year ++ '-' :: pad2 dt.month)).data
      = natDigits dt.year ++ '-' :: pad2 dt.month from rfl] at h
  rw [splitSep_append (pad2 dt.month) (dash_not_mem_natDigits dt.year),
      splitSep_no_sep (dash_not_mem_pad2 dt.month)] at h
  cases hy : yearTok (natDigits dt.year) with
  | none => simp [hy] at h
  | some y' =>
    cases hm : monthTok (pad2 dt.month) with
    | none => simp [hy, hm] at h
    | some m' =>
      simp only [hy, hm, Option.bind_eq_bind, Option.some_bind] at h
      by_cases hy1 : 1 ≤ y'
      · rw [if_pos hy1] at h
        injection h with h
        have h1 : y' = y := congrArg Prod.fst h
        have h2 : m' = m := congrArg Prod.snd h
        have hyv := (yearTok_val hy).1
        have hmv := monthTok_val hm
        rw [natOfDigits_natDigits] at hyv
        rw [natOfDigits_pad2] at hmv
        omega
      · rw [if_neg hy1] at h
        cases h

/-- C10: a month key that `strptime("%Y-%m")` accepts but that is not
the canonical zero-padded rendering of its own (year, month) — such as
`"2024-1"` — matches no stored record: the plot filter always returns
the empty list, whatever the record set. -/
theorem plot_month_filter_empty :
    ∀ (recs : List Expense) (key : String) (y m : Nat),
      pyStrptimeMonth key = some (y, m) → key ≠ fmtMonth ⟨y, m, 1⟩ →
      filterMonth recs key = [] := by
  intro recs key y m hp hne
  unfold filterMonth
  rw [List.filter_eq_nil_iff]
  intro e _
  simp only [decide_eq_true_eq]
  intro hkey
  apply hne
  rw [← hkey] at hp
  obtain ⟨hy, hm⟩ := pyStrptimeMonth_fmtMonth_inv hp
  rw [← hkey]
  show String.mk (natDigits e.date.year ++ '-' :: pad2 e.date.month)
    = String.mk (natDigits y ++ '-' :: pad2 m)
  rw [hy, hm]

/-- Witness for C10: the key `"2024-1"` parses under `%Y-%m`, is not the
canonical `"2024-01"`, and selects nothing from the sample records even
though they contain January 2024 expenses. -/
theorem plot_month_filter_empty_witness :
    pyStrptimeMonth "2024-1" = some (2024, 1)
    ∧ "2024-1" ≠ fmtMonth ⟨2024, 1, 1⟩
    ∧ (filterMonth sampleRecs "2024-1" = [] ∧ filterMonth sampleRecs "2024-01" ≠ []) :=
  ⟨by decide, by decide,
    plot_month_filter_empty sampleRecs "2024-1" 2024 1 (by decide) (by decide),
    by decide⟩

/-! ## Lexicographic-order lemmas (Python string `<`) -/

lemma lexLt_asymm : ∀ {a b : List Char}, lexLt a b = true → lexLt b a = false
  | [], [], h => by simp [lexLt] at h
  | [], _ :: _, _ => by simp [lexLt]
  | _ :: _, [], h => by simp [lexLt] at h
  | a :: as, b :: bs, h => by
    unfold lexLt at h ⊢
    by_cases h1 : a.toNat < b.toNat
    · rw [if_neg (show ¬ b.toNat < a.toNat by omega), if_pos h1]
    · by_cases h2 : b.toNat < a.toNat
      · rw [if_neg h1, if_pos h2] at h; cases h
      · rw [if_neg h1, if_neg h2] at h
        rw [if_neg h2, if_neg h1]
        exact lexLt_asymm h

lemma lexLt_trans : ∀ {a b c : List Char},
    lexLt a b = true → lexLt b c = true → lexLt a c = true
  | [], _, _ :: _, _, _ => by simp [lexLt]
  | [], [], [], h1, _ => by simp [lexLt] at h1
  | [], _ :: _, [], _, h2 => by simp [lexLt] at h2
  | _ :: _, [], _, h1, _ => by simp [lexLt] at h1
  | _ :: _, _ :: _, [], _, h2 => by simp [lexLt] at h2
  | a :: as, b :: bs, c :: cs, h1, h2 => by
    unfold lexLt at h1 h2 ⊢
    by_cases hab : a.toNat < b.toNat
    · by_cases hbc : b.toNat < c.toNat
      · rw [if_pos (show a.toNat < c.toNat by omega)]
      · by_cases hcb : c.toNat < b.toNat
        · rw [if_neg hbc, if_pos hcb] at h2; cases h2
        · rw [if_pos (show a.toNat < c.toNat by omega)]
    · by_cases hba : b.toNat < a.toNat
      · rw [if_neg hab, if_pos hba] at h1; cases h1
      · rw [if_neg hab, if_neg hba] at h1
        by_cases hbc : b.toNat < c.toNat
        · rw [if_pos (show a.toNat < c.toNat by omega)]
        · by_cases hcb : c.toNat < b.toNat
          · rw [if_neg hbc, if_pos hcb] at h2; cases h2
          · rw [if_neg hbc, if_neg hcb] at h2
            rw [if_neg (show ¬ a.toNat < c.toNat by omega),
                if_neg (show ¬ c.toNat < a.toNat by omega)]
            exact lexLt_trans h1 h2

lemma lexLt_total : ∀ {a b : List Char},
    lexLt a b = false → lexLt b a = false → a = b
  | [], [], _, _ => rfl
  | [], _ :: _, h1, _ => by simp [lexLt] at h1
  | _ :: _, [], _, h2 => by simp [lexLt] at h2
  | a :: as, b :: bs, h1, h2 => by
    unfold lexLt at h1 h2
    by_cases hab : a.toNat < b.toNat
    · rw [if_pos hab] at h1; cases h1
    · by_cases hba : b.toNat < a.toNat
      · rw [if_pos hba] at h2; cases h2
      · rw [if_neg hab, if_neg hba] at h1
        rw [if_neg hba, if_neg hab] at h2
        have h3 : a.toNat = b.toNat := by omega
        have hc : a = b := Char.ext (UInt32.ext h3)
        rw [hc, lexLt_total h1 h2]

/-! ## Insertion-sort lemmas for `sorted(totals.keys())` -/

lemma sortInsert_perm (s : String) (l : List String) :
    List.Perm (sortInsert s l) (s :: l) := by
  induction l with
  | nil => rfl
  | cons h t ih =>
    unfold sortInsert
    by_cases hc : lexLt h.data s.data
    · simp only [hc, if_true]
      exact (ih.cons h).trans (List.Perm.swap s h t)
    · simp [hc]

lemma sortStrs_perm (l : List String) : List.Perm (sortStrs l) l := by
  induction l with
  | nil => rfl
  | cons h t ih =>
    show List.Perm (sortInsert h (sortStrs t)) (h :: t)
    exact (sortInsert_perm h (sortStrs t)).trans (ih.cons h)

/-- Sortedness (weak order: nothing later is strictly below) of the
insertion sort used for the month keys. -/
lemma sortInsert_sorted {s : String} {l : List String}
    (hl : l.Pairwise (fun a b => lexLt b.data a.data = false)) :
    (sortInsert s l).Pairwise (fun a b => lexLt b.data a.data = false) := by
  induction l with
  | nil => simp [sortInsert]
  | cons h t ih =>
    rcases List.pairwise_cons.mp hl with ⟨hh, ht⟩
    unfold sortInsert
    by_cases hc : lexLt h.data s.data = true
    · rw [if_pos hc]
      refine List.pairwise_cons.mpr ⟨?_, ih ht⟩
      intro x hx
      rcases List.mem_cons.mp ((sortInsert_perm s t).mem_iff.mp hx) with hxs | hxt
      · subst hxs
        exact lexLt_asymm hc
      · exact hh x hxt
    · have hc2 : lexLt h.data s.data = false := by
        revert hc; cases lexLt h.data s.data <;> simp
      rw [if_neg hc]
      refine List.pairwise_cons.mpr ⟨?_, hl⟩
      intro x hx
      rcases List.mem_cons.mp hx with hxh | hxt
      · rw [hxh]; exact hc2
      · by_contra hxs0
        have hxs : lexLt x.data s.data = true := by
          revert hxs0; cases lexLt x.data s.data <;> simp
        have hxh2 : lexLt x.data h.data = false := hh x hxt
        by_cases hhx : lexLt h.data x.data = true
        · have habs := lexLt_trans hhx hxs
          rw [habs] at hc2; cases hc2
        · have hhx2 : lexLt h.data x.data = false := by
            revert hhx; cases lexLt h.data x.data <;> simp
          have hxeq : x.data = h.data := lexLt_total hxh2 hhx2
          rw [hxeq] at hxs
          rw [hxs] at hc2; cases hc2

lemma sortStrs_sorted (l : List String) :
    (sortStrs l).Pairwise (fun a b => lexLt b.data a.data = false) := by
  induction l with
  | nil => simp [sortStrs]
  | cons h t ih => exact sortInsert_sorted ih

/-- On a duplicate-free list the weak sortedness is strict. -/
lemma sortStrs_pairwise_lt {l : List String} (hnd : l.Nodup) :
    (sortStrs l).Pairwise (fun a b => lexLt a.data b.data = true) := by
  have hnd2 : (sortStrs l).Nodup := (sortStrs_perm l).nodup_iff.mpr hnd
  have hs := sortStrs_sorted l
  have hcomb := List.Pairwise.and hs hnd2
  refine hcomb.imp ?_
  rintro a b ⟨hle, hne⟩
  by_cases hba : lexLt a.data b.data = true
  · exact hba
  · exfalso
    have hba2 : lexLt a.data b.data = false := by
      revert hba; cases lexLt a.data b.data <;> simp
    have hd : a.data = b.data := lexLt_total hba2 hle
    apply hne
    cases a
    cases b
    exact congrArg String.mk hd

/-! ## The totals table: key order invariants -/


lemma dedupFirst_eq_addCats (l : List (Option String)) : dedupFirst l = addCats [] l := rfl

lemma innerUpdate_keys (inner : List (Option String × PyFloat)) (cat : Option String)
    (amt : PyFloat) :
    (innerUpdate inner cat amt).map Prod.fst =
      if cat ∈ inner.map Prod.fst then inner.map Prod.fst
      else inner.map Prod.fst ++ [cat] := by
  induction inner with
  | nil => simp [innerUpdate]
  | cons p t ih =>
    obtain ⟨c, v⟩ := p
    unfold innerUpdate
    by_cases hc : c = cat
    · subst hc
      simp
    · rw [if_neg hc]
      have hne : cat ≠ c := fun h => hc h.symm
      simp only [List.map_cons]
      rw [ih]
      by_cases hm : cat ∈ t.map Prod.fst
      · simp [hm, hne]
      · simp [hm, hne]

lemma outerUpdate_keys (tbl : List (String × List (Option String × PyFloat)))
    (mon : String) (cat : Option String) (amt : PyFloat) :
    (outerUpdate tbl mon cat amt).map Prod.fst =
      if mon ∈ tbl.map Prod.fst then tbl.map Prod.fst
      else tbl.map Prod.fst ++ [mon] := by
  induction tbl with
  | nil => simp [outerUpdate]
  | cons p t ih =>
    obtain ⟨k, inner⟩ := p
    unfold outerUpdate
    by_cases hk : k = mon
    · subst hk
      simp
    · rw [if_neg hk]
      have hne : mon ≠ k := fun h => hk h.symm
      simp only [List.map_cons]
      rw [ih]
      by_cases hm : mon ∈ t.map Prod.fst
      · simp [hm, hne]
      · simp [hm, hne]

lemma table_keys_nodup :
    ∀ (recs : List Expense) (acc : List (String × List (Option String × PyFloat))),
      (acc.map Prod.fst).Nodup →
      ((recs.foldl
          (fun acc e => outerUpdate acc (fmtMonth e.date) e.category e.amount)
          acc).map Prod.fst).Nodup := by
  intro recs
  induction recs with
  | nil => intro acc h; exact h
  | cons e l ih =>
    intro acc h
    refine ih _ ?_
    rw [outerUpdate_keys]
    by_cases hm : fmtMonth e.date ∈ acc.map Prod.fst
    · rw [if_pos hm]; exact h
    · rw [if_neg hm]
      exact List.nodup_append.mpr ⟨h, List.nodup_singleton _, by
        intro x hx hx2
        simp only [List.mem_singleton] at hx2
        exact hm (hx2 ▸ hx)⟩

lemma innerKeysAt_nil (m : String) : innerKeysAt [] m = [] := rfl

lemma innerKeysAt_outerUpdate (tbl : List (String × List (Option String × PyFloat)))
    (mon : String) (cat : Option String) (amt : PyFloat) (m : String) :
    innerKeysAt (outerUpdate tbl mon cat amt) m =
      if mon = m then
        (if cat ∈ innerKeysAt tbl m then innerKeysAt tbl m else innerKeysAt tbl m ++ [cat])
      else innerKeysAt tbl m := by
  induction tbl with
  | nil =>
    show innerKeysAt [(mon, innerUpdate [] cat amt)] m = _
    by_cases hm : mon = m
    · subst hm
      unfold innerKeysAt
      rw [List.find?_cons_of_pos _ (by simp)]
      simp [innerUpdate]
    · rw [if_neg hm]
      unfold innerKeysAt
      rw [List.find?_cons_of_neg _ (by simp [hm])]
  | cons p t ih =>
    obtain ⟨k, inner⟩ := p
    unfold outerUpdate
    by_cases hk : k = mon
    · subst hk
      rw [if_pos rfl]
      by_cases hm : k = m
      · subst hm
        rw [if_pos rfl]
        unfold innerKeysAt
        rw [List.find?_cons_of_pos _ (by simp), List.find?_cons_of_pos _ (by simp)]
        simp only [Option.map_some', Option.getD_some]
        exact innerUpdate_keys inner cat amt
      · rw [if_neg hm]
        unfold innerKeysAt
        rw [List.find?_cons_of_neg _ (by simp [hm]), List.find?_cons_of_neg _ (by simp [hm])]
    · rw [if_neg hk]
      by_cases hm : k = m
      · subst hm
        have hmon : ¬ mon = k := fun h => hk h.symm
        rw [if_neg hmon]
        unfold innerKeysAt
        rw [List.find?_cons_of_pos _ (by simp), List.find?_cons_of_pos _ (by simp)]
      · unfold innerKeysAt
        rw [List.find?_cons_of_neg _ (by simp [hm]), List.find?_cons_of_neg _ (by simp [hm])]
        exact ih

lemma innerKeysAt_fold :
    ∀ (l : List Expense) (acc : List (String × List (Option String × PyFloat))) (m : String),
      innerKeysAt
        (l.foldl (fun acc e => outerUpdate acc (fmtMonth e.date) e.category e.amount) acc) m
        = addCats (innerKeysAt acc m) (catsOf m l) := by
  intro l
  induction l with
  | nil => intro acc m; rfl
  | cons e l ih =>
    intro acc m
    show innerKeysAt
      (l.foldl _ (outerUpdate acc (fmtMonth e.date) e.category e.amount)) m = _
    rw [ih]
    rw [innerKeysAt_outerUpdate]
    unfold catsOf
    by_cases hm : fmtMonth e.date = m
    · rw [if_pos hm]
      rw [show (List.filter (fun e2 => decide (fmtMonth e2.date = m)) (e :: l))
          = e :: List.filter (fun e2 => decide (fmtMonth e2.date = m)) l from by
        simp [List.filter_cons, hm]]
      rw [List.map_cons]
      rfl
    · rw [if_neg hm]
      rw [show (List.filter (fun e2 => decide (fmtMonth e2.date = m)) (e :: l))
          = List.filter (fun e2 => decide (fmtMonth e2.date = m)) l from by
        simp [List.filter_cons, hm]]

lemma table_cats (recs : List Expense) (m : String) :
    innerKeysAt (monthly_totals_table recs) m = dedupFirst (catsOf m recs) := by
  rw [show monthly_totals_table recs
      = recs.foldl (fun acc e => outerUpdate acc (fmtMonth e.date) e.category e.amount) []
      from rfl]
  rw [innerKeysAt_fold recs [] m, innerKeysAt_nil, dedupFirst_eq_addCats]

/-! ## Claim C9 — display order of months and categories -/

/-- C9: in the monthly-totals display, the month keys appear in strictly
ascending code-point-lexicographic order, and within each month the
categories appear in first-encounter (dict insertion) order — the order
of first occurrence among that month's records — not sorted. -/
theorem monthly_totals_display_order :
    ∀ recs : List Expense,
      ((monthly_totals_display recs).map Prod.fst).Pairwise
        (fun a b => lexLt a.data b.data = true)
      ∧ ∀ p ∈ monthly_totals_display recs,
          p.2.map Prod.fst = dedupFirst (catsOf p.1 recs) := by
  intro recs
  constructor
  · show ((sortStrs ((monthly_totals_table recs).map Prod.fst)).map
      (fun m => (m, (((monthly_totals_table recs).find? (fun p => p.1 = m)).map (·.2)).getD []))
        |>.map Prod.fst).Pairwise _
    rw [List.map_map]
    rw [show (Prod.fst ∘ fun m : String =>
        (m, (((monthly_totals_table recs).find? (fun p => p.1 = m)).map (·.2)).getD []))
      = id from rfl]
    rw [List.map_id]
    have hkeys : ((monthly_totals_table recs).map Prod.fst).Nodup :=
      table_keys_nodup recs [] (by simp)
    exact sortStrs_pairwise_lt hkeys
  · intro p hp
    rcases List.mem_map.mp hp with ⟨m, _, hpm⟩
    rw [← hpm]
    exact table_cats recs m

/-- Witness for C9: on the sample records the displayed months are
`["2024-01", "2024-02"]` in ascending order and the January categories
come out in first-encounter order. -/
theorem monthly_totals_display_order_witness :
    ((monthly_totals_display sampleRecs).map Prod.fst).Pairwise
      (fun a b => lexLt a.data b.data = true)
    ∧ ([(some "Food", roundPos 155 10)] :
        List (Option String × PyFloat)).map Prod.fst
      = dedupFirst (catsOf "2024-01" sampleRecs) :=
  ⟨(monthly_totals_display_order sampleRecs).1,
    (monthly_totals_display_order sampleRecs).2
      ("2024-01", [(some "Food", roundPos 155 10)]) (by decide)⟩

/-! ## Rounding machinery: exact characterization of `roundPos`

The value of a finite float and the rounding grid are expressed in `ℚ`;
`qpow2 e` is the exact power `2^e`. -/


lemma qpow2_pos (e : Int) : 0 < qpow2 e := zpow_pos (by norm_num) e

lemma qpow2_add (a b : Int) : qpow2 (a + b) = qpow2 a * qpow2 b :=
  zpow_add₀ (by norm_num) a b

lemma qpow2_natCast (n : Nat) : qpow2 (n : Int) = ((2 ^ n : Nat) : ℚ) := by
  rw [qpow2, zpow_natCast]
  push_cast
  ring

lemma qpow2_neg_natCast (n : Nat) : qpow2 (-(n : Int)) = (((2 ^ n : Nat) : ℚ))⁻¹ := by
  rw [qpow2, zpow_neg, zpow_natCast]
  push_cast
  ring

lemma qpow2_mono {a b : Int} (h : a ≤ b) : qpow2 a ≤ qpow2 b := by
  unfold qpow2
  exact zpow_le_zpow_right₀ (by norm_num) h

lemma nlog2Aux_spec : ∀ (f n : Nat), 1 ≤ n → n ≤ f →
    2 ^ nlog2Aux f n ≤ n ∧ n < 2 ^ (nlog2Aux f n + 1) := by
  intro f
  induction f with
  | zero => intro n h1 h2; omega
  | succ f ih =>
    intro n h1 h2
    unfold nlog2Aux
    by_cases hn : n ≤ 1
    · have hn1 : n = 1 := by omega
      subst hn1
      simp
    · rw [if_neg hn]
      have h12 : 1 ≤ n / 2 := by omega
      have h2f : n / 2 ≤ f := by omega
      obtain ⟨hl, hu⟩ := ih (n / 2) h12 h2f
      rw [pow_succ, pow_succ, pow_succ] at *
      omega

lemma nlog2_spec {n : Nat} (h : 1 ≤ n) :
    2 ^ nlog2 n ≤ n ∧ n < 2 ^ (nlog2 n + 1) :=
  nlog2Aux_spec n n h le_rfl

lemma pow2LE_iff {e : Int} {num den : Nat} :
    pow2LE e num den = true ↔ (den : ℚ) * qpow2 e ≤ num := by
  unfold pow2LE
  by_cases he : 0 ≤ e
  · rw [if_pos he]
    have hq : qpow2 e = ((2 ^ e.toNat : Nat) : ℚ) := by
      rw [← qpow2_natCast]
      congr 1
      omega
    rw [hq]
    constructor
    · intro h
      have h2 : den * 2 ^ e.toNat ≤ num := by simpa using h
      exact_mod_cast h2
    · intro h
      simp only [decide_eq_true_eq]
      exact_mod_cast h
  · rw [if_neg he]
    have hq : qpow2 e = (((2 ^ (-e).toNat : Nat) : ℚ))⁻¹ := by
      rw [← qpow2_neg_natCast]
      congr 1
      omega
    rw [hq]
    have hpos : (0 : ℚ) < ((2 ^ (-e).toNat : Nat) : ℚ) := by positivity
    constructor
    · intro h
      have h2 : den ≤ num * 2 ^ (-e).toNat := by simpa using h
      have h3 : (den : ℚ) ≤ (num : ℚ) * ((2 ^ (-e).toNat : Nat) : ℚ) := by exact_mod_cast h2
      rw [mul_inv_le_iff₀ hpos]
      exact h3
    · intro h
      rw [mul_inv_le_iff₀ hpos] at h
      simp only [decide_eq_true_eq]
      exact_mod_cast h

lemma ilog2Rat_spec {num den : Nat} (hnum : 0 < num) (hden : 0 < den) :
    (den : ℚ) * qpow2 (ilog2Rat num den) ≤ num
    ∧ (num : ℚ) < den * qpow2 (ilog2Rat num den + 1) := by
  obtain ⟨hnl, hnu⟩ := nlog2_spec hnum
  obtain ⟨hdl, hdu⟩ := nlog2_spec hden
  set a := nlog2 num with ha
  set b := nlog2 den with hb
  have hupper : (num : ℚ) < (den : ℚ) * qpow2 ((a : Int) - b + 1) := by
    have h1 : (num : ℚ) < ((2 ^ (a + 1) : Nat) : ℚ) := by exact_mod_cast hnu
    have h2 : ((2 ^ b : Nat) : ℚ) ≤ den := by exact_mod_cast hdl
    calc (num : ℚ) < ((2 ^ (a + 1) : Nat) : ℚ) := h1
      _ = ((2 ^ b : Nat) : ℚ) * qpow2 ((a : Int) - b + 1) := by
          rw [← qpow2_natCast, ← qpow2_natCast, ← qpow2_add]
          congr 1
          omega
      _ ≤ (den : ℚ) * qpow2 ((a : Int) - b + 1) := by
          have := qpow2_pos ((a : Int) - b + 1)
          exact mul_le_mul_of_nonneg_right h2 (le_of_lt this)
  have hlower : (den : ℚ) * qpow2 ((a : Int) - b - 1) < num := by
    have h1 : ((2 ^ a : Nat) : ℚ) ≤ num := by exact_mod_cast hnl
    have h2 : (den : ℚ) < ((2 ^ (b + 1) : Nat) : ℚ) := by exact_mod_cast hdu
    calc (den : ℚ) * qpow2 ((a : Int) - b - 1)
        < ((2 ^ (b + 1) : Nat) : ℚ) * qpow2 ((a : Int) - b - 1) := by
          have := qpow2_pos ((a : Int) - b - 1)
          exact mul_lt_mul_of_pos_right h2 this
      _ = ((2 ^ a : Nat) : ℚ) := by
          rw [← qpow2_natCast, ← qpow2_natCast, ← qpow2_add]
          congr 1
          omega
      _ ≤ num := h1
  unfold ilog2Rat
  by_cases hp : pow2LE ((a : Int) - b) num den = true
  · rw [if_pos hp]
    exact ⟨pow2LE_iff.mp hp, hupper⟩
  · rw [if_neg hp]
    constructor
    · exact le_of_lt (by
        have : ((a : Int) - b - 1) + 1 = (a : Int) - b := by omega
        exact hlower)
    · have hnp : ¬ ((den : ℚ) * qpow2 ((a : Int) - b) ≤ num) := fun hc => hp (pow2LE_iff.mpr hc)
      push_neg at hnp
      have : ((a : Int) - b - 1) + 1 = (a : Int) - b := by omega
      rw [this]
      exact hnp

lemma ilog2Rat_unique {num den : Nat} {E : Int} (hnum : 0 < num) (hden : 0 < den)
    (h1 : (den : ℚ) * qpow2 E ≤ num) (h2 : (num : ℚ) < den * qpow2 (E + 1)) :
    ilog2Rat num den = E := by
  obtain ⟨hs1, hs2⟩ := ilog2Rat_spec hnum hden
  set I := ilog2Rat num den with hI
  rcases lt_trichotomy I E with h | h | h
  · exfalso
    have hle : I + 1 ≤ E := by omega
    have : (num : ℚ) < den * qpow2 E := lt_of_lt_of_le hs2 (by
      have := qpow2_mono hle
      exact mul_le_mul_of_nonneg_left this (by positivity))
    linarith
  · exact h
  · exfalso
    have hle : E + 1 ≤ I := by omega
    have : (num : ℚ) < den * qpow2 I := lt_of_lt_of_le h2 (by
      have := qpow2_mono hle
      exact mul_le_mul_of_nonneg_left this (by positivity))
    linarith

/-! ## `rheDiv`: round-half-even division -/

lemma rheDiv_err1 (n d : Nat) (hd : 0 < d) : 2 * n ≤ 2 * rheDiv n d * d + d := by
  have hqr : d * (n / d) + n % d = n := Nat.div_add_mod n d
  have hr : n % d < d := Nat.mod_lt n hd
  have hsplit : 2 * n = 2 * (n / d) * d + 2 * (n % d) := by
    conv_lhs => rw [← hqr]
    ring
  unfold rheDiv
  by_cases h1 : 2 * (n % d) < d
  · rw [if_pos h1, hsplit]
    exact Nat.add_le_add_left (by omega) _
  · rw [if_neg h1]
    by_cases h2 : d < 2 * (n % d)
    · rw [if_pos h2, hsplit]
      have he : 2 * (n / d + 1) * d = 2 * (n / d) * d + 2 * d := by ring
      rw [he, Nat.add_assoc]
      exact Nat.add_le_add_left (by omega) _
    · rw [if_neg h2]
      by_cases h3 : n / d % 2 = 0
      · rw [if_pos h3, hsplit]
        exact Nat.add_le_add_left (by omega) _
      · rw [if_neg h3, hsplit]
        have he : 2 * (n / d + 1) * d = 2 * (n / d) * d + 2 * d := by ring
        rw [he, Nat.add_assoc]
        exact Nat.add_le_add_left (by omega) _

lemma rheDiv_err2 (n d : Nat) (hd : 0 < d) : 2 * rheDiv n d * d ≤ 2 * n + d := by
  have hqr : d * (n / d) + n % d = n := Nat.div_add_mod n d
  have hr : n % d < d := Nat.mod_lt n hd
  have hsplit : 2 * n = 2 * (n / d) * d + 2 * (n % d) := by
    conv_lhs => rw [← hqr]
    ring
  unfold rheDiv
  by_cases h1 : 2 * (n % d) < d
  · rw [if_pos h1, hsplit]
    omega
  · rw [if_neg h1]
    have he : 2 * (n / d + 1) * d = 2 * (n / d) * d + 2 * d := by ring
    by_cases h2 : d < 2 * (n % d)
    · rw [if_pos h2, he, hsplit]
      omega
    · rw [if_neg h2]
      by_cases h3 : n / d % 2 = 0
      · rw [if_pos h3, hsplit]
        omega
      · rw [if_neg h3, he, hsplit]
        omega

lemma rheDiv_unique (n d k : Nat) (hd : 0 < d)
    (h1 : 2 * n < 2 * k * d + d) (h2 : 2 * k * d < 2 * n + d) :
    rheDiv n d = k := by
  have e1 := rheDiv_err1 n d hd
  have e2 := rheDiv_err2 n d hd
  set j := rheDiv n d with hj
  rcases Nat.lt_trichotomy j k with h | h | h
  · exfalso
    have hstep : 2 * j * d + 2 * d ≤ 2 * k * d := by
      have hmul : (2 * j + 2) * d ≤ (2 * k) * d := Nat.mul_le_mul_right d (by omega)
      calc 2 * j * d + 2 * d = (2 * j + 2) * d := by ring
        _ ≤ 2 * k * d := hmul
    omega
  · exact h
  · exfalso
    have hstep : 2 * k * d + 2 * d ≤ 2 * j * d := by
      have hmul : (2 * k + 2) * d ≤ (2 * j) * d := Nat.mul_le_mul_right d (by omega)
      calc 2 * k * d + 2 * d = (2 * k + 2) * d := by ring
        _ ≤ 2 * j * d := hmul
    omega

lemma rheDiv_exact (k d : Nat) (hd : 0 < d) : rheDiv (k * d) d = k := by
  unfold rheDiv
  rw [Nat.mul_div_cancel _ hd, Nat.mul_mod_left]
  simp [hd]

/-! ## `scaleDiv` in terms of `rheDiv` -/

lemma scaleDiv_repr (num den : Nat) (t : Int) (hden : 0 < den) :
    ∃ N D : Nat, 0 < D ∧ scaleDiv num den t = rheDiv N D
      ∧ (N : ℚ) * qpow2 t * den = (num : ℚ) * D := by
  by_cases ht : 0 ≤ t
  · refine ⟨num, den * 2 ^ t.toNat, by positivity, by simp [scaleDiv, ht], ?_⟩
    have hq : qpow2 t = ((2 ^ t.toNat : Nat) : ℚ) := by
      rw [← qpow2_natCast]
      congr 1
      omega
    rw [hq]
    push_cast
    ring
  · refine ⟨num * 2 ^ (-t).toNat, den, hden, by simp [scaleDiv, ht], ?_⟩
    have hq : qpow2 t = (((2 ^ (-t).toNat : Nat) : ℚ))⁻¹ := by
      rw [← qpow2_neg_natCast]
      congr 1
      omega
    rw [hq]
    have hpos : ((2 ^ (-t).toNat : Nat) : ℚ) ≠ 0 := by positivity
    push_cast
    field_simp

/-- Determine `ilog2Rat` from the decidable binade test. -/
lemma ilog2Rat_of_pow2LE {num den : Nat} {E : Int} (hnum : 0 < num) (hden : 0 < den)
    (h1 : pow2LE E num den = true) (h2 : pow2LE (E + 1) num den = false) :
    ilog2Rat num den = E := by
  have h2q : ¬ ((den : ℚ) * qpow2 (E + 1) ≤ num) := by
    rw [← pow2LE_iff, h2]
    simp
  exact ilog2Rat_unique hnum hden (pow2LE_iff.mp h1) (not_le.mp h2q)

/-- The binade of `N / 2^56` for `N` in the binade `[2^(δ+52), 2^(δ+53))`. -/
lemma ilog2Rat_shift (N δ : Nat) (hδ : δ ≤ 56)
    (hlo : 2 ^ (δ + 52) ≤ N) (hhi : N < 2 ^ (δ + 53)) :
    ilog2Rat N (2 ^ 56) = (δ : Int) - 4 := by
  have hN : 0 < N := lt_of_lt_of_le (by positivity) hlo
  apply ilog2Rat_of_pow2LE hN (by positivity)
  · unfold pow2LE
    by_cases h4 : 4 ≤ δ
    · rw [if_pos (show (0:Int) ≤ (δ:Int) - 4 from by omega)]
      rw [show ((δ:Int) - 4).toNat = δ - 4 from by omega]
      apply decide_eq_true
      calc 2 ^ 56 * 2 ^ (δ - 4) = 2 ^ (56 + (δ - 4)) := by rw [pow_add]
        _ = 2 ^ (δ + 52) := by congr 1; omega
        _ ≤ N := hlo
    · rw [if_neg (show ¬ (0:Int) ≤ (δ:Int) - 4 from by omega)]
      rw [show (-((δ:Int) - 4)).toNat = 4 - δ from by omega]
      apply decide_eq_true
      calc 2 ^ 56 = 2 ^ ((δ + 52) + (4 - δ)) := by congr 1; omega
        _ = 2 ^ (δ + 52) * 2 ^ (4 - δ) := by rw [pow_add]
        _ ≤ N * 2 ^ (4 - δ) := Nat.mul_le_mul_right _ hlo
  · unfold pow2LE
    by_cases h3 : 3 ≤ δ
    · rw [if_pos (show (0:Int) ≤ (δ:Int) - 4 + 1 from by omega)]
      rw [show ((δ:Int) - 4 + 1).toNat = δ - 3 from by omega]
      apply decide_eq_false
      intro hcon
      have hid : 2 ^ 56 * 2 ^ (δ - 3) = 2 ^ (δ + 53) := by
        rw [← pow_add]; congr 1; omega
      rw [hid] at hcon
      omega
    · rw [if_neg (show ¬ (0:Int) ≤ (δ:Int) - 4 + 1 from by omega)]
      rw [show (-((δ:Int) - 4 + 1)).toNat = 3 - δ from by omega]
      apply decide_eq_false
      intro hcon
      have hlt : N * 2 ^ (3 - δ) < 2 ^ 56 := by
        calc N * 2 ^ (3 - δ) < 2 ^ (δ + 53) * 2 ^ (3 - δ) :=
              mul_lt_mul_of_pos_right hhi (by positivity)
          _ = 2 ^ ((δ + 53) + (3 - δ)) := by rw [← pow_add]
          _ = 2 ^ 56 := by congr 1; omega
      omega

/-- `roundPos` computed from its binade and its rounded mantissa (no
renormalization and no overflow case). -/
lemma roundPos_eq_fin (num den : Nat) (E : Int) (k : Nat)
    (hnum : num ≠ 0)
    (hilog : ilog2Rat num den = E + 52)
    (hE1 : -1074 ≤ E) (hE2 : E ≤ 971)
    (hsc : scaleDiv num den E = k) (hne : k ≠ 2 ^ 53) :
    roundPos num den = .fin false k E := by
  have hmax : max (ilog2Rat num den - 52) (-1074) = E := by rw [hilog]; omega
  simp only [roundPos]
  rw [if_neg hnum, hmax, hsc, if_neg hne, if_neg hne,
    if_neg (show ¬ (971:Int) < E from by omega)]

/-- The sum of two positive finite floats is the rounded exact dyadic sum,
aligned at the smaller exponent. -/
lemma pyAdd_pos_fin (m1 m2 : Nat) (e1 e2 : Int) (hm1 : m1 ≠ 0) (hm2 : m2 ≠ 0)
    (hle : e2 ≤ e1) :
    pyAdd (.fin false m1 e1) (.fin false m2 e2)
      = withSign false (roundDyadic (m1 * 2 ^ (e1 - e2).toNat + m2) e2) := by
  have hmin : min e1 e2 = e2 := by omega
  simp only [pyAdd]
  rw [if_neg (show ¬ ((decide (m1 = 0) && decide (m2 = 0)) = true) from by simp [hm1])]
  rw [if_neg hm1, if_neg hm2, hmin]
  simp only [Bool.false_eq_true, if_false]
  rw [show (e2 - e2).toNat = 0 from by omega]
  simp only [pow_zero, mul_one]
  have hm2i : (0:Int) < (m2:Int) := by exact_mod_cast Nat.pos_of_ne_zero hm2
  have t1 : (0:Int) ≤ (m1:Int) * 2 ^ (e1 - e2).toNat := by positivity
  have hMpos : (0:Int) < (m1:Int) * 2 ^ (e1 - e2).toNat + (m2:Int) := by linarith
  rw [if_neg (ne_of_gt hMpos)]
  rw [show decide ((m1:Int) * 2 ^ (e1 - e2).toNat + (m2:Int) < 0) = false from
    decide_eq_false (not_lt.mpr (le_of_lt hMpos))]
  have hcast : (m1:Int) * 2 ^ (e1 - e2).toNat + (m2:Int)
      = ((m1 * 2 ^ (e1 - e2).toNat + m2 : Nat) : Int) := by push_cast; ring
  rw [hcast, Int.natAbs_ofNat]


lemma pySumN_add (a b : Nat) (x : PyFloat) :
    ∀ s, pySumN (a + b) x s = pySumN b x (pySumN a x s) := by
  induction a with
  | zero => intro s; rw [Nat.zero_add]; rfl
  | succ n ih =>
    intro s
    rw [show n + 1 + b = (n + b) + 1 from by omega]
    show pySumN (n + b) x (pyAdd s x) = pySumN b x (pySumN (n + 1) x s)
    rw [ih (pyAdd s x)]
    rfl

/-- Adding `0.1` to a positive float `m * 2^(δ-56)` (with `m` in the
binade and no carry across `2^53`) rounds the exact 56-bit-aligned sum. -/
lemma pyAdd_tenth_core (m δ k : Nat) (hδ : δ ≤ 13) (hm52 : 2 ^ 52 ≤ m)
    (hub : m * 2 ^ δ + 7205759403792794 < 2 ^ (δ + 53))
    (hk : rheDiv ((m * 2 ^ δ + 7205759403792794) * 2 ^ (56 - δ)) (2 ^ 56) = k)
    (hne : k ≠ 2 ^ 53) :
    pyAdd (.fin false m ((δ : Int) - 56)) tenth = .fin false k ((δ : Int) - 56) := by
  have h252 : (0:Nat) < 2 ^ 52 := by positivity
  have hm0 : m ≠ 0 := Nat.pos_iff_ne_zero.mp (lt_of_lt_of_le h252 hm52)
  have hlo : 2 ^ (δ + 52) ≤ m * 2 ^ δ + 7205759403792794 := by
    calc 2 ^ (δ + 52) = 2 ^ 52 * 2 ^ δ := by rw [← pow_add]; congr 1; omega
      _ ≤ m * 2 ^ δ := Nat.mul_le_mul_right _ hm52
      _ ≤ m * 2 ^ δ + 7205759403792794 := Nat.le_add_right _ _
  have hNpos : 0 < m * 2 ^ δ + 7205759403792794 := by positivity
  have hNne : m * 2 ^ δ + 7205759403792794 ≠ 0 := Nat.pos_iff_ne_zero.mp hNpos
  have hilog : ilog2Rat (m * 2 ^ δ + 7205759403792794) (2 ^ 56)
      = ((δ : Int) - 56) + 52 := by
    rw [ilog2Rat_shift (m * 2 ^ δ + 7205759403792794) δ (by omega) hlo hub]
    omega
  have hsc : scaleDiv (m * 2 ^ δ + 7205759403792794) (2 ^ 56) ((δ : Int) - 56) = k := by
    unfold scaleDiv
    rw [if_neg (show ¬ (0:Int) ≤ (δ:Int) - 56 from by omega)]
    rw [show (-((δ:Int) - 56)).toNat = 56 - δ from by omega]
    exact hk
  have hround : roundPos (m * 2 ^ δ + 7205759403792794) (2 ^ 56)
      = .fin false k ((δ:Int) - 56) :=
    roundPos_eq_fin _ _ _ _ hNne hilog (by omega) (by omega) hsc hne
  rw [pyAdd_pos_fin m 7205759403792794 ((δ:Int) - 56) (-56) hm0 (by norm_num) (by omega)]
  rw [show (((δ:Int) - 56) - (-56)).toNat = δ from by omega]
  rw [show roundDyadic (m * 2 ^ δ + 7205759403792794) (-56 : Int)
      = roundPos (m * 2 ^ δ + 7205759403792794) (2 ^ 56) from by
    unfold roundDyadic
    rw [if_neg (show ¬ (0:Int) ≤ (-56:Int) from by norm_num)]
    congr 1]
  rw [hround]
  rfl

/-- Regime step, round-down direction: the fractional tail of `0.1` at
scale `2^(δ-56)` is below one half, so the mantissa grows by `⌊C/2^δ⌋`. -/
lemma pyAdd_tenth_down (m δ qC rC : Nat) (hδ : δ ≤ 13) (hm52 : 2 ^ 52 ≤ m)
    (hC : 7205759403792794 = qC * 2 ^ δ + rC) (hr : 2 * rC < 2 ^ δ)
    (hm53 : m + qC < 2 ^ 53) :
    pyAdd (.fin false m ((δ : Int) - 56)) tenth
      = .fin false (m + qC) ((δ : Int) - 56) := by
  have hrC : rC < 2 ^ δ := by omega
  have hsplit : (2:Nat) ^ δ * 2 ^ (56 - δ) = 2 ^ 56 := by
    rw [← pow_add]; congr 1; omega
  have key : (m * 2 ^ δ + 7205759403792794) * 2 ^ (56 - δ)
      = (m + qC) * 2 ^ 56 + rC * 2 ^ (56 - δ) := by
    calc (m * 2 ^ δ + 7205759403792794) * 2 ^ (56 - δ)
        = (m * 2 ^ δ + (qC * 2 ^ δ + rC)) * 2 ^ (56 - δ) := by rw [← hC]
      _ = (m + qC) * (2 ^ δ * 2 ^ (56 - δ)) + rC * 2 ^ (56 - δ) := by ring
      _ = (m + qC) * 2 ^ 56 + rC * 2 ^ (56 - δ) := by rw [hsplit]
  have hub : m * 2 ^ δ + 7205759403792794 < 2 ^ (δ + 53) := by
    calc m * 2 ^ δ + 7205759403792794
        = m * 2 ^ δ + (qC * 2 ^ δ + rC) := by rw [← hC]
      _ = (m * 2 ^ δ + qC * 2 ^ δ) + rC := by ring
      _ < (m * 2 ^ δ + qC * 2 ^ δ) + 2 ^ δ := Nat.add_lt_add_left hrC _
      _ = (m + qC + 1) * 2 ^ δ := by ring
      _ ≤ 2 ^ 53 * 2 ^ δ := Nat.mul_le_mul_right _ (by omega)
      _ = 2 ^ (δ + 53) := by rw [← pow_add]; congr 1; omega
  have hB : 2 * (rC * 2 ^ (56 - δ)) < 2 ^ 56 := by
    calc 2 * (rC * 2 ^ (56 - δ)) = (2 * rC) * 2 ^ (56 - δ) := by ring
      _ < 2 ^ δ * 2 ^ (56 - δ) := mul_lt_mul_of_pos_right hr (by positivity)
      _ = 2 ^ 56 := hsplit
  have hk : rheDiv ((m * 2 ^ δ + 7205759403792794) * 2 ^ (56 - δ)) (2 ^ 56) = m + qC := by
    apply rheDiv_unique
    · positivity
    · calc 2 * ((m * 2 ^ δ + 7205759403792794) * 2 ^ (56 - δ))
          = 2 * ((m + qC) * 2 ^ 56) + 2 * (rC * 2 ^ (56 - δ)) := by rw [key]; ring
        _ < 2 * ((m + qC) * 2 ^ 56) + 2 ^ 56 := Nat.add_lt_add_left hB _
        _ = 2 * (m + qC) * 2 ^ 56 + 2 ^ 56 := by ring
    · have hpos : 0 < 2 * (rC * 2 ^ (56 - δ)) + 2 ^ 56 :=
        Nat.lt_of_lt_of_le (by norm_num) (Nat.le_add_left _ _)
      calc 2 * (m + qC) * 2 ^ 56
          < 2 * (m + qC) * 2 ^ 56 + (2 * (rC * 2 ^ (56 - δ)) + 2 ^ 56) :=
            Nat.lt_add_of_pos_right hpos
        _ = 2 * ((m * 2 ^ δ + 7205759403792794) * 2 ^ (56 - δ)) + 2 ^ 56 := by
            rw [key]; ring
  exact pyAdd_tenth_core m δ (m + qC) hδ hm52 hub hk (by omega)

/-- Regime step, round-up direction: the fractional tail of `0.1` at
scale `2^(δ-56)` is above one half, so the mantissa grows by `⌊C/2^δ⌋ + 1`. -/
lemma pyAdd_tenth_up (m δ qC rC : Nat) (hδ : δ ≤ 13) (hm52 : 2 ^ 52 ≤ m)
    (hC : 7205759403792794 = qC * 2 ^ δ + rC) (hrC : rC < 2 ^ δ)
    (hr : 2 ^ δ < 2 * rC)
    (hm53 : m + qC + 1 < 2 ^ 53) :
    pyAdd (.fin false m ((δ : Int) - 56)) tenth
      = .fin false (m + qC + 1) ((δ : Int) - 56) := by
  have hsplit : (2:Nat) ^ δ * 2 ^ (56 - δ) = 2 ^ 56 := by
    rw [← pow_add]; congr 1; omega
  have key : (m * 2 ^ δ + 7205759403792794) * 2 ^ (56 - δ)
      = (m + qC) * 2 ^ 56 + rC * 2 ^ (56 - δ) := by
    calc (m * 2 ^ δ + 7205759403792794) * 2 ^ (56 - δ)
        = (m * 2 ^ δ + (qC * 2 ^ δ + rC)) * 2 ^ (56 - δ) := by rw [← hC]
      _ = (m + qC) * (2 ^ δ * 2 ^ (56 - δ)) + rC * 2 ^ (56 - δ) := by ring
      _ = (m + qC) * 2 ^ 56 + rC * 2 ^ (56 - δ) := by rw [hsplit]
  have hub : m * 2 ^ δ + 7205759403792794 < 2 ^ (δ + 53) := by
    calc m * 2 ^ δ + 7205759403792794
        = m * 2 ^ δ + (qC * 2 ^ δ + rC) := by rw [← hC]
      _ = (m * 2 ^ δ + qC * 2 ^ δ) + rC := by ring
      _ < (m * 2 ^ δ + qC * 2 ^ δ) + 2 ^ δ := Nat.add_lt_add_left hrC _
      _ = (m + qC + 1) * 2 ^ δ := by ring
      _ ≤ 2 ^ 53 * 2 ^ δ := Nat.mul_le_mul_right _ (by omega)
      _ = 2 ^ (δ + 53) := by rw [← pow_add]; congr 1; omega
  have hB2 : 2 * (rC * 2 ^ (56 - δ)) < 2 * 2 ^ 56 := by
    calc 2 * (rC * 2 ^ (56 - δ)) = (2 * rC) * 2 ^ (56 - δ) := by ring
      _ < (2 * 2 ^ δ) * 2 ^ (56 - δ) :=
          mul_lt_mul_of_pos_right (by omega) (by positivity)
      _ = 2 * (2 ^ δ * 2 ^ (56 - δ)) := by ring
      _ = 2 * 2 ^ 56 := by rw [hsplit]
  have hB3 : (2:Nat) ^ 56 < 2 * (rC * 2 ^ (56 - δ)) := by
    calc (2:Nat) ^ 56 = 2 ^ δ * 2 ^ (56 - δ) := hsplit.symm
      _ < (2 * rC) * 2 ^ (56 - δ) := mul_lt_mul_of_pos_right hr (by positivity)
      _ = 2 * (rC * 2 ^ (56 - δ)) := by ring
  have hk : rheDiv ((m * 2 ^ δ + 7205759403792794) * 2 ^ (56 - δ)) (2 ^ 56)
      = m + qC + 1 := by
    apply rheDiv_unique
    · positivity
    · calc 2 * ((m * 2 ^ δ + 7205759403792794) * 2 ^ (56 - δ))
          = 2 * ((m + qC) * 2 ^ 56) + 2 * (rC * 2 ^ (56 - δ)) := by rw [key]; ring
        _ < 2 * ((m + qC) * 2 ^ 56) + 2 * 2 ^ 56 := Nat.add_lt_add_left hB2 _
        _ ≤ 2 * ((m + qC) * 2 ^ 56) + (2 * 2 ^ 56 + 2 ^ 56) :=
            Nat.add_le_add_left (Nat.le_add_right _ _) _
        _ = 2 * (m + qC + 1) * 2 ^ 56 + 2 ^ 56 := by ring
    · calc 2 * (m + qC + 1) * 2 ^ 56
          = 2 * ((m + qC) * 2 ^ 56) + (2 ^ 56 + 2 ^ 56) := by ring
        _ < 2 * ((m + qC) * 2 ^ 56) + (2 * (rC * 2 ^ (56 - δ)) + 2 ^ 56) :=
            Nat.add_lt_add_left (Nat.add_lt_add_right hB3 _) _
        _ = 2 * ((m * 2 ^ δ + 7205759403792794) * 2 ^ (56 - δ)) + 2 ^ 56 := by
            rw [key]; ring
  exact pyAdd_tenth_core m δ (m + qC + 1) hδ hm52 hub hk (by omega)

/-- `j` round-down regime steps in a row. -/
lemma pySumN_tenth_down (δ qC rC : Nat) (hδ : δ ≤ 13)
    (hC : 7205759403792794 = qC * 2 ^ δ + rC) (hr : 2 * rC < 2 ^ δ) :
    ∀ (j m : Nat), 2 ^ 52 ≤ m → m + j * qC < 2 ^ 53 →
      pySumN j tenth (.fin false m ((δ : Int) - 56))
        = .fin false (m + j * qC) ((δ : Int) - 56) := by
  intro j
  induction j with
  | zero => intro m _ _; simp [pySumN]
  | succ n ih =>
    intro m hm52 hm53
    rw [show m + (n + 1) * qC = m + qC + n * qC from by ring] at hm53
    have hstep : pyAdd (.fin false m ((δ:Int) - 56)) tenth
        = .fin false (m + qC) ((δ:Int) - 56) :=
      pyAdd_tenth_down m δ qC rC hδ hm52 hC hr (by omega)
    show pySumN n tenth (pyAdd (.fin false m ((δ:Int) - 56)) tenth) = _
    rw [hstep, ih (m + qC) (by omega) hm53,
      show m + qC + n * qC = m + (n + 1) * qC from by ring]

/-- `j` round-up regime steps in a row. -/
lemma pySumN_tenth_up (δ qC rC : Nat) (hδ : δ ≤ 13)
    (hC : 7205759403792794 = qC * 2 ^ δ + rC) (hrC : rC < 2 ^ δ)
    (hr : 2 ^ δ < 2 * rC) :
    ∀ (j m : Nat), 2 ^ 52 ≤ m → m + j * (qC + 1) < 2 ^ 53 →
      pySumN j tenth (.fin false m ((δ : Int) - 56))
        = .fin false (m + j * (qC + 1)) ((δ : Int) - 56) := by
  intro j
  induction j with
  | zero => intro m _ _; simp [pySumN]
  | succ n ih =>
    intro m hm52 hm53
    rw [show m + (n + 1) * (qC + 1) = m + qC + 1 + n * (qC + 1) from by ring] at hm53
    have hstep : pyAdd (.fin false m ((δ:Int) - 56)) tenth
        = .fin false (m + qC + 1) ((δ:Int) - 56) :=
      pyAdd_tenth_up m δ qC rC hδ hm52 hC hrC hr (by omega)
    show pySumN n tenth (pyAdd (.fin false m ((δ:Int) - 56)) tenth) = _
    rw [hstep, ih (m + qC + 1) (by omega) hm53,
      show m + qC + 1 + n * (qC + 1) = m + (n + 1) * (qC + 1) from by ring]


/-- Extend an accumulated-sum evaluation by one more addition. -/
lemma pySumN_step (a b : Nat) (hb : a + 1 = b) {s t : PyFloat}
    (hs : pySumN a tenth pyZero = s) (hadd : pyAdd s tenth = t) :
    pySumN b tenth pyZero = t := by
  subst hb
  rw [pySumN_add a 1 tenth pyZero, hs]
  exact hadd

/-- Extend an accumulated-sum evaluation by a whole regime run. -/
lemma pySumN_run (a j b : Nat) (hb : a + j = b) {s u : PyFloat}
    (hs : pySumN a tenth pyZero = s) (hr : pySumN j tenth s = u) :
    pySumN b tenth pyZero = u := by
  subst hb
  rw [pySumN_add a j tenth pyZero, hs, hr]

/-- The exact float reached by `0.0 + 0.1 + 0.1 + ... + 0.1` after
10000 additions of `0.1`, assembled binade by binade. -/
lemma pySumN_10000_tenth :
    pySumN 10000 tenth pyZero = .fin false 8796093022209397 (-43) := by
  have s1 : pySumN 1 tenth pyZero = .fin false 7205759403792794 (-56) := by decide
  have s2 : pySumN 2 tenth pyZero = .fin false 7205759403792794 (-55) :=
    pySumN_step 1 2 (by norm_num) s1 (by decide)
  have s3 : pySumN 3 tenth pyZero = .fin false 5404319552844596 (-54) :=
    pySumN_step 2 3 (by norm_num) s2 (by decide)
  have s4 : pySumN 4 tenth pyZero = .fin false 7205759403792794 (-54) :=
    pySumN_step 3 4 (by norm_num) s3 (by decide)
  have s5 : pySumN 5 tenth pyZero = .fin false 4503599627370496 (-53) :=
    pySumN_step 4 5 (by norm_num) s4 (by decide)
  have r53 : pySumN 5 tenth (.fin false 4503599627370496 (-53))
      = .fin false 9007199254740991 (-53) := by
    have h := pySumN_tenth_down 3 900719925474099 2 (by norm_num) (by norm_num)
      (by norm_num) 5 4503599627370496 (by norm_num) (by norm_num)
    norm_num at h
    exact h
  have s10 : pySumN 10 tenth pyZero = .fin false 9007199254740991 (-53) :=
    pySumN_run 5 5 10 (by norm_num) s5 r53
  have s11 : pySumN 11 tenth pyZero = .fin false 4953959590107545 (-52) :=
    pySumN_step 10 11 (by norm_num) s10 (by decide)
  have r52 : pySumN 8 tenth (.fin false 4953959590107545 (-52))
      = .fin false 8556839292003945 (-52) := by
    have h := pySumN_tenth_up 4 450359962737049 10 (by norm_num) (by norm_num)
      (by norm_num) (by norm_num) 8 4953959590107545 (by norm_num) (by norm_num)
    norm_num at h
    exact h
  have s19 : pySumN 19 tenth pyZero = .fin false 8556839292003945 (-52) :=
    pySumN_run 11 8 19 (by norm_num) s11 r52
  have s20 : pySumN 20 tenth pyZero = .fin false 4503599627370497 (-51) :=
    pySumN_step 19 20 (by norm_num) s19 (by decide)
  have r51 : pySumN 19 tenth (.fin false 4503599627370497 (-51))
      = .fin false 8782019273372472 (-51) := by
    have h := pySumN_tenth_up 5 225179981368524 26 (by norm_num) (by norm_num)
      (by norm_num) (by norm_num) 19 4503599627370497 (by norm_num) (by norm_num)
    norm_num at h
    exact h
  have s39 : pySumN 39 tenth pyZero = .fin false 8782019273372472 (-51) :=
    pySumN_run 20 19 39 (by norm_num) s20 r51
  have s40 : pySumN 40 tenth pyZero = .fin false 4503599627370498 (-50) :=
    pySumN_step 39 40 (by norm_num) s39 (by decide)
  have r50 : pySumN 40 tenth (.fin false 4503599627370498 (-50))
      = .fin false 9007199254740978 (-50) := by
    have h := pySumN_tenth_down 6 112589990684262 26 (by norm_num) (by norm_num)
      (by norm_num) 40 4503599627370498 (by norm_num) (by norm_num)
    norm_num at h
    exact h
  have s80 : pySumN 80 tenth pyZero = .fin false 9007199254740978 (-50) :=
    pySumN_run 40 40 80 (by norm_num) s40 r50
  have s81 : pySumN 81 tenth pyZero = .fin false 4559894622712620 (-49) :=
    pySumN_step 80 81 (by norm_num) s80 (by decide)
  have r49 : pySumN 79 tenth (.fin false 4559894622712620 (-49))
      = .fin false 9007199254740969 (-49) := by
    have h := pySumN_tenth_down 7 56294995342131 26 (by norm_num) (by norm_num)
      (by norm_num) 79 4559894622712620 (by norm_num) (by norm_num)
    norm_num at h
    exact h
  have s160 : pySumN 160 tenth pyZero = .fin false 9007199254740969 (-49) :=
    pySumN_run 81 79 160 (by norm_num) s81 r49
  have s161 : pySumN 161 tenth pyZero = .fin false 4531747125041550 (-48) :=
    pySumN_step 160 161 (by norm_num) s160 (by decide)
  have r48 : pySumN 158 tenth (.fin false 4531747125041550 (-48))
      = .fin false 8979051757069978 (-48) := by
    have h := pySumN_tenth_up 8 28147497671065 154 (by norm_num) (by norm_num)
      (by norm_num) (by norm_num) 158 4531747125041550 (by norm_num) (by norm_num)
    norm_num at h
    exact h
  have s319 : pySumN 319 tenth pyZero = .fin false 8979051757069978 (-48) :=
    pySumN_run 161 158 319 (by norm_num) s161 r48
  have s320 : pySumN 320 tenth pyZero = .fin false 4503599627370522 (-47) :=
    pySumN_step 319 320 (by norm_num) s319 (by decide)
  have r47 : pySumN 319 tenth (.fin false 4503599627370522 (-47))
      = .fin false 8993125505905549 (-47) := by
    have h := pySumN_tenth_up 9 14073748835532 410 (by norm_num) (by norm_num)
      (by norm_num) (by norm_num) 319 4503599627370522 (by norm_num) (by norm_num)
    norm_num at h
    exact h
  have s639 : pySumN 639 tenth pyZero = .fin false 8993125505905549 (-47) :=
    pySumN_run 320 319 639 (by norm_num) s320 r47
  have s640 : pySumN 640 tenth pyZero = .fin false 4503599627370541 (-46) :=
    pySumN_step 639 640 (by norm_num) s639 (by decide)
  have r46 : pySumN 640 tenth (.fin false 4503599627370541 (-46))
      = .fin false 9007199254740781 (-46) := by
    have h := pySumN_tenth_down 10 7036874417766 410 (by norm_num) (by norm_num)
      (by norm_num) 640 4503599627370541 (by norm_num) (by norm_num)
    norm_num at h
    exact h
  have s1280 : pySumN 1280 tenth pyZero = .fin false 9007199254740781 (-46) :=
    pySumN_run 640 640 1280 (by norm_num) s640 r46
  have s1281 : pySumN 1281 tenth pyZero = .fin false 4507118064579274 (-45) :=
    pySumN_step 1280 1281 (by norm_num) s1280 (by decide)
  have r45 : pySumN 1279 tenth (.fin false 4507118064579274 (-45))
      = .fin false 9007199254740631 (-45) := by
    have h := pySumN_tenth_down 11 3518437208883 410 (by norm_num) (by norm_num)
      (by norm_num) 1279 4507118064579274 (by norm_num) (by norm_num)
    norm_num at h
    exact h
  have s2560 : pySumN 2560 tenth pyZero = .fin false 9007199254740631 (-45) :=
    pySumN_run 1281 1279 2560 (by norm_num) s1281 r45
  have s2561 : pySumN 2561 tenth pyZero = .fin false 4505358845974757 (-44) :=
    pySumN_step 2560 2561 (by norm_num) s2560 (by decide)
  have r44 : pySumN 2558 tenth (.fin false 4505358845974757 (-44))
      = .fin false 9005440036137393 (-44) := by
    have h := pySumN_tenth_up 12 1759218604441 2458 (by norm_num) (by norm_num)
      (by norm_num) (by norm_num) 2558 4505358845974757 (by norm_num) (by norm_num)
    norm_num at h
    exact h
  have s5119 : pySumN 5119 tenth pyZero = .fin false 9005440036137393 (-44) :=
    pySumN_run 2561 2558 5119 (by norm_num) s2561 r44
  have s5120 : pySumN 5120 tenth pyZero = .fin false 4503599627370917 (-43) :=
    pySumN_step 5119 5120 (by norm_num) s5119 (by decide)
  have r43 : pySumN 4880 tenth (.fin false 4503599627370917 (-43))
      = .fin false 8796093022209397 (-43) := by
    have h := pySumN_tenth_up 13 879609302220 6554 (by norm_num) (by norm_num)
      (by norm_num) (by norm_num) 4880 4503599627370917 (by norm_num) (by norm_num)
    norm_num at h
    exact h
  have s10000 : pySumN 10000 tenth pyZero = .fin false 8796093022209397 (-43) :=
    pySumN_run 5120 4880 10000 (by norm_num) s5120 r43
  exact s10000


lemma table_replicate_aux (r : Expense) :
    ∀ (n : Nat) (v : PyFloat),
      (List.replicate n r).foldl
          (fun acc e => outerUpdate acc (fmtMonth e.date) e.category e.amount)
          [(fmtMonth r.date, [(r.category, v)])]
        = [(fmtMonth r.date, [(r.category, pySumN n r.amount v)])] := by
  intro n
  induction n with
  | zero => intro v; rfl
  | succ k ih =>
    intro v
    rw [List.replicate_succ, List.foldl_cons]
    have hstep : outerUpdate [(fmtMonth r.date, [(r.category, v)])]
        (fmtMonth r.date) r.category r.amount
        = [(fmtMonth r.date, [(r.category, pyAdd v r.amount)])] := by
      simp [outerUpdate, innerUpdate]
    rw [hstep, ih (pyAdd v r.amount)]
    rfl

/-- `monthly_totals` over `n + 1` copies of one record: a single month
row with a single category cell holding the `n + 1`-fold float sum. -/
lemma monthly_totals_replicate (n : Nat) (r : Expense) :
    monthly_totals_table (List.replicate (n + 1) r)
      = [(fmtMonth r.date, [(r.category, pySumN (n + 1) r.amount pyZero)])] := by
  unfold monthly_totals_table
  rw [List.replicate_succ, List.foldl_cons]
  have hfirst : outerUpdate [] (fmtMonth r.date) r.category r.amount
      = [(fmtMonth r.date, [(r.category, pyAdd pyZero r.amount)])] := by
    simp [outerUpdate, innerUpdate]
  rw [hfirst, table_replicate_aux r n (pyAdd pyZero r.amount)]
  rfl

/-- The totals table over 10000 copies of the `0.10` record, fully
evaluated. -/
lemma monthly_totals_tenth_table :
    monthly_totals_table (List.replicate 10000 sumRec)
      = [("2024-01", [(some "Food", PyFloat.fin false 8796093022209397 (-43))])] := by
  have h := monthly_totals_replicate 9999 sumRec
  norm_num at h
  rw [h, show sumRec.amount = tenth from by decide, pySumN_10000_tenth,
    show fmtMonth sumRec.date = "2024-01" from by decide,
    show sumRec.category = some "Food" from rfl]

/-! ## `.2f` round-trip: `fmt2 (float (fmt2 x)) = fmt2 x` -/

/-- `cents` is determined by any value estimate within half a cent:
if `100 * m' * 2^e'` lies strictly within `1/2` of the integer `c`,
the half-even rounding returns exactly `c`. -/
lemma cents_of_close_val (m' : Nat) (e' : Int) (c : Nat) (he' : e' ≤ -1)
    (h1 : 200 * (m' : ℚ) * qpow2 e' < 2 * c + 1)
    (h2 : (2 * c : ℚ) < 200 * m' * qpow2 e' + 1) :
    cents m' e' = c := by
  have hq : qpow2 e' = (((2 ^ (-e').toNat : Nat) : ℚ))⁻¹ := by
    conv_lhs => rw [show e' = -(((-e').toNat : Nat) : Int) from by omega]
    rw [qpow2_neg_natCast]
  have hp : ((2 ^ (-e').toNat : Nat) : ℚ) ≠ 0 := by positivity
  have hp0 : (0:ℚ) < ((2 ^ (-e').toNat : Nat) : ℚ) := by positivity
  have hqinv : qpow2 e' * ((2 ^ (-e').toNat : Nat) : ℚ) = 1 := by
    rw [hq]
    exact inv_mul_cancel₀ hp
  have h1n : 2 * (100 * m') < 2 * c * 2 ^ (-e').toNat + 2 ^ (-e').toNat := by
    have hm := mul_lt_mul_of_pos_right h1 hp0
    have h1q : (200 * (m':ℚ)) < 2 * c * (2 ^ (-e').toNat : Nat) + (2 ^ (-e').toNat : Nat) := by
      calc (200 * (m':ℚ)) = 200 * m' * (qpow2 e' * ((2 ^ (-e').toNat : Nat) : ℚ)) := by
            rw [hqinv]; ring
        _ = 200 * m' * qpow2 e' * ((2 ^ (-e').toNat : Nat) : ℚ) := by ring
        _ < (2 * c + 1) * ((2 ^ (-e').toNat : Nat) : ℚ) := hm
        _ = 2 * c * (2 ^ (-e').toNat : Nat) + (2 ^ (-e').toNat : Nat) := by ring
    have h1q' : 200 * m' < 2 * c * 2 ^ (-e').toNat + 2 ^ (-e').toNat := by exact_mod_cast h1q
    omega
  have h2n : 2 * c * 2 ^ (-e').toNat < 2 * (100 * m') + 2 ^ (-e').toNat := by
    have hm := mul_lt_mul_of_pos_right h2 hp0
    have h2q : (2 * (c:ℚ)) * (2 ^ (-e').toNat : Nat)
        < 200 * m' + (2 ^ (-e').toNat : Nat) := by
      calc (2 * (c:ℚ)) * (2 ^ (-e').toNat : Nat)
          < (200 * m' * qpow2 e' + 1) * ((2 ^ (-e').toNat : Nat) : ℚ) := hm
        _ = 200 * m' * (qpow2 e' * ((2 ^ (-e').toNat : Nat) : ℚ))
            + (2 ^ (-e').toNat : Nat) := by ring
        _ = 200 * m' + (2 ^ (-e').toNat : Nat) := by rw [hqinv]; ring
    have h2q' : 2 * c * 2 ^ (-e').toNat < 200 * m' + 2 ^ (-e').toNat := by exact_mod_cast h2q
    omega
  unfold cents
  by_cases hm0 : m' = 0
  · rw [if_pos hm0]
    subst hm0
    simp only [Nat.cast_zero, mul_zero, zero_mul, zero_add] at h2
    have hlt : (2 * c : ℚ) < 1 := by linarith
    have hc : 2 * c < 1 := by exact_mod_cast hlt
    omega
  · rw [if_neg hm0, if_neg (show ¬ (0:Int) ≤ e' from by omega)]
    exact rheDiv_unique _ _ _ (by positivity) h1n h2n

/-- `scaleDiv`'s result is within half a grid step of the exact
quotient, multiplicatively: `2·num ≤ (2·q+1)·2^t·den` and
`(2·q-1)·2^t·den ≤ 2·num`. -/
lemma scaleDiv_close (num den : Nat) (t : Int) (hden : 0 < den) :
    2 * (num : ℚ) ≤ (2 * scaleDiv num den t + 1) * (qpow2 t * den)
    ∧ (2 * (scaleDiv num den t : ℚ) - 1) * (qpow2 t * den) ≤ 2 * num := by
  obtain ⟨N, D, hD, hs, hval⟩ := scaleDiv_repr num den t hden
  have e1 := rheDiv_err1 N D hD
  have e2 := rheDiv_err2 N D hD
  have hD0 : (0:ℚ) < D := by exact_mod_cast hD
  have hqd : (0:ℚ) < qpow2 t * den := by
    have h1 := qpow2_pos t
    have h2 : (0:ℚ) < den := by exact_mod_cast hden
    positivity
  have hvd : (num : ℚ) * D = N * (qpow2 t * den) := by
    rw [← hval]; ring
  rw [hs]
  constructor
  · have h1 : (2 * N : ℚ) ≤ (2 * rheDiv N D + 1) * D := by
      have : (2 * N : ℚ) ≤ 2 * rheDiv N D * D + D := by exact_mod_cast e1
      linarith [this]
    have key : (2 * (num:ℚ)) * D ≤ ((2 * rheDiv N D + 1) * (qpow2 t * den)) * D := by
      have hm := mul_le_mul_of_nonneg_right h1 (le_of_lt hqd)
      calc (2 * (num:ℚ)) * D = 2 * (N * (qpow2 t * den)) := by rw [← hvd]; ring
        _ ≤ ((2 * rheDiv N D + 1) * D) * (qpow2 t * den) := by linarith [hm]
        _ = ((2 * rheDiv N D + 1) * (qpow2 t * den)) * D := by ring
    exact le_of_mul_le_mul_right key hD0
  · have h2 : (2 * (rheDiv N D : ℚ) - 1) * D ≤ 2 * N := by
      have : (2 * (rheDiv N D : ℚ)) * D ≤ 2 * N + D := by exact_mod_cast e2
      nlinarith [this, hD0]
    have key : ((2 * (rheDiv N D : ℚ) - 1) * (qpow2 t * den)) * D ≤ (2 * (num:ℚ)) * D := by
      have hm := mul_le_mul_of_nonneg_right h2 (le_of_lt hqd)
      calc ((2 * (rheDiv N D : ℚ) - 1) * (qpow2 t * den)) * D
          = ((2 * (rheDiv N D : ℚ) - 1) * D) * (qpow2 t * den) := by ring
        _ ≤ (2 * N) * (qpow2 t * den) := hm
        _ = 2 * (N * (qpow2 t * den)) := by ring
        _ = 2 * ((num:ℚ) * D) := by rw [← hvd]
        _ = (2 * (num:ℚ)) * D := by ring
    exact le_of_mul_le_mul_right key hD0

lemma ilog2Rat_le_bound {c : Nat} (hc1 : 0 < c) (hc2 : c < 100 * 2 ^ 46) :
    ilog2Rat c 100 ≤ 45 := by
  by_contra h
  push_neg at h
  have hs := (ilog2Rat_spec hc1 (by norm_num : (0:Nat) < 100)).1
  have hm : qpow2 ((46:Nat) : Int) ≤ qpow2 (ilog2Rat c 100) := qpow2_mono (by omega)
  have hq46 : qpow2 ((46:Nat) : Int) = ((2 ^ 46 : Nat) : ℚ) := qpow2_natCast 46
  have hcq : (c:ℚ) < ((100 * 2 ^ 46 : Nat) : ℚ) := by exact_mod_cast hc2
  have hchain : ((100 * 2 ^ 46 : Nat) : ℚ) ≤ c := by
    calc ((100 * 2 ^ 46 : Nat) : ℚ) = 100 * ((2 ^ 46 : Nat) : ℚ) := by push_cast; ring
      _ = 100 * qpow2 ((46:Nat) : Int) := by rw [hq46]
      _ ≤ 100 * qpow2 (ilog2Rat c 100) := by
          exact mul_le_mul_of_nonneg_left hm (by norm_num)
      _ ≤ c := hs
  linarith

lemma ilog2Rat_ge_bound {c : Nat} (hc1 : 0 < c) : -7 ≤ ilog2Rat c 100 := by
  by_contra h
  push_neg at h
  have hs := (ilog2Rat_spec hc1 (by norm_num : (0:Nat) < 100)).2
  have hm : qpow2 (ilog2Rat c 100 + 1) ≤ qpow2 (-7 : Int) := qpow2_mono (by omega)
  have h7 : qpow2 (-7 : Int) = (128:ℚ)⁻¹ := by
    rw [show ((-7:Int)) = -((7:Nat):Int) from by norm_num, qpow2_neg_natCast]
    norm_num
  have hc1q : (1:ℚ) ≤ c := by exact_mod_cast hc1
  have : (c:ℚ) < 1 := by
    calc (c:ℚ) < 100 * qpow2 (ilog2Rat c 100 + 1) := hs
      _ ≤ 100 * qpow2 (-7 : Int) := mul_le_mul_of_nonneg_left hm (by norm_num)
      _ = 100 * (128:ℚ)⁻¹ := by rw [h7]
      _ < 1 := by norm_num
  linarith

/-- Reading `c/100` back to 2 decimals returns exactly `c` whenever
`c < 100 * 2^46` — the float grid around `c/100` is finer than half a
cent, so `float("<c/100>")` determines the cent count uniquely. -/
lemma roundPos_cents_inv (c : Nat) (hc : c < 100 * 2 ^ 46) :
    ∃ m' e', roundPos c 100 = .fin false m' e' ∧ cents m' e' = c := by
  by_cases hc0 : c = 0
  · subst hc0
    refine ⟨0, -1074, ?_, ?_⟩
    · unfold roundPos
      rw [if_pos rfl]
    · unfold cents
      rw [if_pos rfl]
  · have hc1 : 0 < c := Nat.pos_of_ne_zero hc0
    have hIle : ilog2Rat c 100 ≤ 45 := ilog2Rat_le_bound hc1 hc
    have hIge : -7 ≤ ilog2Rat c 100 := ilog2Rat_ge_bound hc1
    have hmax : max (ilog2Rat c 100 - 52) (-1074) = ilog2Rat c 100 - 52 := by omega
    obtain ⟨hcl1, hcl2⟩ := scaleDiv_close c 100 (ilog2Rat c 100 - 52) (by norm_num)
    push_cast at hcl1 hcl2
    have hqt : qpow2 (ilog2Rat c 100 - 52) ≤ qpow2 (-7 : Int) := qpow2_mono (by omega)
    have h7 : qpow2 (-7 : Int) = ((128 : ℚ))⁻¹ := by
      rw [show ((-7:Int)) = -((7:Nat):Int) from by norm_num, qpow2_neg_natCast]
      norm_num
    have hqtpos := qpow2_pos (ilog2Rat c 100 - 52)
    have hsmall : 100 * qpow2 (ilog2Rat c 100 - 52) < 1 := by
      calc (100:ℚ) * qpow2 (ilog2Rat c 100 - 52) ≤ 100 * qpow2 (-7 : Int) :=
            mul_le_mul_of_nonneg_left hqt (by norm_num)
        _ = 100 * ((128 : ℚ))⁻¹ := by rw [h7]
        _ < 1 := by norm_num
    have hv1 : 200 * (scaleDiv c 100 (ilog2Rat c 100 - 52) : ℚ)
        * qpow2 (ilog2Rat c 100 - 52) < 2 * c + 1 := by
      nlinarith [hcl2, hqtpos, hsmall]
    have hv2 : (2 * c : ℚ) < 200 * (scaleDiv c 100 (ilog2Rat c 100 - 52) : ℚ)
        * qpow2 (ilog2Rat c 100 - 52) + 1 := by
      nlinarith [hcl1, hqtpos, hsmall]
    by_cases hren : scaleDiv c 100 (ilog2Rat c 100 - 52) = 2 ^ 53
    · rw [hren] at hv1 hv2
      have hval : 200 * ((2 ^ 52 : Nat) : ℚ) * qpow2 (ilog2Rat c 100 - 52 + 1)
          = 200 * ((2 ^ 53 : Nat) : ℚ) * qpow2 (ilog2Rat c 100 - 52) := by
        rw [qpow2_add]
        rw [show qpow2 (1:Int) = (2:ℚ) from by
          rw [show ((1:Int)) = ((1:Nat):Int) from by norm_num, qpow2_natCast]; norm_num]
        push_cast
        ring
      refine ⟨2 ^ 52, ilog2Rat c 100 - 52 + 1, ?_, ?_⟩
      · simp only [roundPos]
        rw [if_neg hc0, hmax, if_pos hren, if_pos hren,
          if_neg (show ¬ (971:Int) < ilog2Rat c 100 - 52 + 1 from by omega)]
      · apply cents_of_close_val _ _ _ (by omega)
        · rw [hval]
          exact hv1
        · rw [hval]
          exact hv2
    · refine ⟨scaleDiv c 100 (ilog2Rat c 100 - 52), ilog2Rat c 100 - 52, ?_, ?_⟩
      · exact roundPos_eq_fin c 100 (ilog2Rat c 100 - 52) _ hc0 (by omega) (by omega)
          (by omega) rfl hren
      · exact cents_of_close_val _ _ _ (by omega) hv1 hv2

lemma qpow2_cancel (δ : Nat) : qpow2 (-(δ:Int)) * ((2 ^ δ : Nat) : ℚ) = 1 := by
  rw [qpow2_neg_natCast]
  exact inv_mul_cancel₀ (by positivity)

lemma qpow2_cancel' (δ : Nat) : qpow2 (-(δ:Int)) * (2:ℚ) ^ δ = 1 := by
  have h := qpow2_cancel δ
  push_cast at h
  exact h

/-- For a float below `2^46` (exponent at most `-7`), the cent count is
below `100 * 2^46`. -/
lemma cents_lt_of_small_exp (m : Nat) (e : Int) (hm : m < 2 ^ 53) (he : e ≤ -7) :
    cents m e < 100 * 2 ^ 46 := by
  by_cases hm0 : m = 0
  · unfold cents
    rw [if_pos hm0]
    positivity
  · have hδ7 : 7 ≤ (-e).toNat := by omega
    have heδ : e = -(((-e).toNat : Nat) : Int) := by omega
    have he0 : ¬ (0:Int) ≤ e := by omega
    unfold cents
    rw [if_neg hm0, if_neg he0]
    have e2 := rheDiv_err2 (100 * m) (2 ^ (-e).toNat) (by positivity)
    have hp : (0:ℚ) < (2:ℚ) ^ (-e).toNat := by positivity
    have hqp : (0:ℚ) < qpow2 (-(((-e).toNat : Nat) : Int)) := qpow2_pos _
    have e2q : (2 * (rheDiv (100 * m) (2 ^ (-e).toNat) : ℚ)) * (2:ℚ) ^ (-e).toNat
        ≤ 200 * m + (2:ℚ) ^ (-e).toNat := by
      have h := e2
      have h' : ((2 * rheDiv (100 * m) (2 ^ (-e).toNat) * 2 ^ (-e).toNat : Nat) : ℚ)
          ≤ ((2 * (100 * m) + 2 ^ (-e).toNat : Nat) : ℚ) := by exact_mod_cast h
      push_cast at h'
      linarith
    have key : (2 * (rheDiv (100 * m) (2 ^ (-e).toNat) : ℚ))
        ≤ 200 * m * qpow2 (-(((-e).toNat : Nat) : Int)) + 1 := by
      calc (2 * (rheDiv (100 * m) (2 ^ (-e).toNat) : ℚ))
          = (2 * (rheDiv (100 * m) (2 ^ (-e).toNat) : ℚ)) * (2:ℚ) ^ (-e).toNat
            * qpow2 (-(((-e).toNat : Nat) : Int)) := by
            rw [mul_assoc, mul_comm ((2:ℚ) ^ (-e).toNat), qpow2_cancel', mul_one]
        _ ≤ (200 * m + (2:ℚ) ^ (-e).toNat)
            * qpow2 (-(((-e).toNat : Nat) : Int)) :=
            mul_le_mul_of_nonneg_right e2q (le_of_lt hqp)
        _ = 200 * m * qpow2 (-(((-e).toNat : Nat) : Int))
            + (2:ℚ) ^ (-e).toNat * qpow2 (-(((-e).toNat : Nat) : Int)) := by ring
        _ = 200 * m * qpow2 (-(((-e).toNat : Nat) : Int)) + 1 := by
            rw [mul_comm ((2:ℚ) ^ (-e).toNat), qpow2_cancel']
    have hA7 : qpow2 (-(((-e).toNat : Nat) : Int)) ≤ qpow2 (-7 : Int) :=
      qpow2_mono (by omega)
    have h7 : qpow2 (-7 : Int) = ((128 : ℚ))⁻¹ := by
      rw [show ((-7:Int)) = -((7:Nat):Int) from by norm_num, qpow2_neg_natCast]
      norm_num
    have hmq : (m:ℚ) ≤ 2 ^ 53 - 1 := by
      have : (m:ℚ) ≤ ((2 ^ 53 - 1 : Nat) : ℚ) := by exact_mod_cast Nat.le_pred_of_lt hm
      calc (m:ℚ) ≤ ((2 ^ 53 - 1 : Nat) : ℚ) := this
        _ = 2 ^ 53 - 1 := by push_cast; norm_num
    have hbound : 200 * (m:ℚ) * qpow2 (-(((-e).toNat : Nat) : Int))
        ≤ 200 * (2 ^ 53 - 1) * ((128:ℚ))⁻¹ := by
      have s1 : 200 * (m:ℚ) * qpow2 (-(((-e).toNat : Nat) : Int))
          ≤ 200 * ((2:ℚ) ^ 53 - 1) * qpow2 (-(((-e).toNat : Nat) : Int)) := by
        apply mul_le_mul_of_nonneg_right _ (le_of_lt hqp)
        linarith
      have s2 : 200 * ((2:ℚ) ^ 53 - 1) * qpow2 (-(((-e).toNat : Nat) : Int))
          ≤ 200 * ((2:ℚ) ^ 53 - 1) * ((128:ℚ))⁻¹ := by
        rw [← h7]
        apply mul_le_mul_of_nonneg_left hA7
        norm_num
      linarith
    have hfinal : (2 * (rheDiv (100 * m) (2 ^ (-e).toNat) : ℚ)) < 2 * (100 * 2 ^ 46) := by
      calc (2 * (rheDiv (100 * m) (2 ^ (-e).toNat) : ℚ))
          ≤ 200 * m * qpow2 (-(((-e).toNat : Nat) : Int)) + 1 := key
        _ ≤ 200 * (2 ^ 53 - 1) * ((128:ℚ))⁻¹ + 1 := by linarith
        _ < 2 * (100 * 2 ^ 46) := by norm_num
    have hq : (rheDiv (100 * m) (2 ^ (-e).toNat) : ℚ) < ((100 * 2 ^ 46 : Nat) : ℚ) := by
      push_cast
      linarith
    exact_mod_cast hq

/-- For a normal float with exponent at least `-6`, the grid around it is
coarser than a cent, and `float` of its 2-decimal rendering is the float
itself. -/
lemma roundPos_cents_exact (m : Nat) (e : Int) (hm1 : 2 ^ 52 ≤ m) (hm2 : m < 2 ^ 53)
    (he1 : -6 ≤ e) (he2 : e ≤ 971) :
    roundPos (cents m e) 100 = .fin false m e := by
  have hm0 : m ≠ 0 := by
    have : (0:Nat) < 2 ^ 52 := by positivity
    omega
  by_cases he0 : (0:Int) ≤ e
  · -- integer grid: the rendering is exact
    have hcents : cents m e = 100 * m * 2 ^ e.toNat := by
      unfold cents
      rw [if_neg hm0, if_pos he0]
    rw [hcents]
    have hnum : 100 * m * 2 ^ e.toNat ≠ 0 := by positivity
    have hilog : ilog2Rat (100 * m * 2 ^ e.toNat) 100 = e + 52 := by
      apply ilog2Rat_of_pow2LE (Nat.pos_of_ne_zero hnum) (by norm_num)
      · unfold pow2LE
        rw [if_pos (show (0:Int) ≤ e + 52 from by omega)]
        rw [show (e + 52).toNat = e.toNat + 52 from by omega]
        apply decide_eq_true
        calc 100 * 2 ^ (e.toNat + 52) = 100 * 2 ^ 52 * 2 ^ e.toNat := by
              rw [pow_add]; ring
          _ ≤ 100 * m * 2 ^ e.toNat :=
              Nat.mul_le_mul_right _ (Nat.mul_le_mul_left _ hm1)
      · unfold pow2LE
        rw [if_pos (show (0:Int) ≤ e + 52 + 1 from by omega)]
        rw [show (e + 52 + 1).toNat = e.toNat + 53 from by omega]
        apply decide_eq_false
        intro hcon
        have hlt : 100 * m * 2 ^ e.toNat < 100 * 2 ^ (e.toNat + 53) := by
          calc 100 * m * 2 ^ e.toNat < 100 * 2 ^ 53 * 2 ^ e.toNat :=
                mul_lt_mul_of_pos_right
                  (mul_lt_mul_of_pos_left hm2 (by norm_num)) (by positivity)
            _ = 100 * 2 ^ (e.toNat + 53) := by rw [pow_add]; ring
        omega
    have hsc : scaleDiv (100 * m * 2 ^ e.toNat) 100 e = m := by
      unfold scaleDiv
      rw [if_pos he0, show 100 * m * 2 ^ e.toNat = m * (100 * 2 ^ e.toNat) from by ring]
      exact rheDiv_exact m (100 * 2 ^ e.toNat) (by positivity)
    exact roundPos_eq_fin _ _ e m hnum hilog (by omega) (by omega) hsc (ne_of_lt hm2)
  · -- fractional grid of spacing 2^e ≥ 1/64, still coarser than 1/200
    have hδ1 : 1 ≤ (-e).toNat := by omega
    have hδ6 : (-e).toNat ≤ 6 := by omega
    have hδ64 : 2 ^ (-e).toNat ≤ 64 := by
      calc 2 ^ (-e).toNat ≤ 2 ^ 6 := Nat.pow_le_pow_right (by norm_num) hδ6
        _ = 64 := by norm_num
    have hδpos : 0 < 2 ^ (-e).toNat := by positivity
    have hcents : cents m e = rheDiv (100 * m) (2 ^ (-e).toNat) := by
      unfold cents
      rw [if_neg hm0, if_neg he0]
    have e1 := rheDiv_err1 (100 * m) (2 ^ (-e).toNat) hδpos
    have e2 := rheDiv_err2 (100 * m) (2 ^ (-e).toNat) hδpos
    have hsplit : (2:Nat) ^ (52 - (-e).toNat) * 2 ^ (-e).toNat = 2 ^ 52 := by
      rw [← pow_add]; congr 1; omega
    have hsplit3 : (2:Nat) ^ (53 - (-e).toNat) * 2 ^ (-e).toNat = 2 ^ 53 := by
      rw [← pow_add]; congr 1; omega
    have hlow : 100 * 2 ^ (52 - (-e).toNat) ≤ rheDiv (100 * m) (2 ^ (-e).toNat) := by
      by_contra hcon
      push_neg at hcon
      have hx : (rheDiv (100 * m) (2 ^ (-e).toNat) + 1) * 2 ^ (-e).toNat
          ≤ 100 * 2 ^ (52 - (-e).toNat) * 2 ^ (-e).toNat :=
        Nat.mul_le_mul_right _ (by omega)
      have hy : 100 * 2 ^ (52 - (-e).toNat) * 2 ^ (-e).toNat = 100 * 2 ^ 52 := by
        rw [mul_assoc, hsplit]
      have hz : 200 * 2 ^ 52 ≤ 200 * m := Nat.mul_le_mul_left _ hm1
      have hw : 200 * m + 2 ^ (-e).toNat ≤ 200 * m := by
        calc 200 * m + 2 ^ (-e).toNat = 2 * (100 * m) + 2 ^ (-e).toNat := by ring
          _ ≤ (2 * rheDiv (100 * m) (2 ^ (-e).toNat) * 2 ^ (-e).toNat + 2 ^ (-e).toNat)
              + 2 ^ (-e).toNat := Nat.add_le_add_right e1 _
          _ = 2 * ((rheDiv (100 * m) (2 ^ (-e).toNat) + 1) * 2 ^ (-e).toNat) := by ring
          _ ≤ 2 * (100 * 2 ^ (52 - (-e).toNat) * 2 ^ (-e).toNat) :=
              Nat.mul_le_mul_left _ hx
          _ = 2 * (100 * 2 ^ 52) := by rw [hy]
          _ = 200 * 2 ^ 52 := by ring
          _ ≤ 200 * m := hz
      have h0 : 2 ^ (-e).toNat ≤ 0 := by
        have hw' : 200 * m + 2 ^ (-e).toNat ≤ 200 * m + 0 := by
          rw [Nat.add_zero]
          exact hw
        exact Nat.le_of_add_le_add_left hw'
      rw [Nat.le_zero.mp h0] at hδpos
      exact absurd hδpos (lt_irrefl 0)
    have hhigh : rheDiv (100 * m) (2 ^ (-e).toNat) < 100 * 2 ^ (53 - (-e).toNat) := by
      by_contra hcon
      push_neg at hcon
      have hb : 2 * (100 * 2 ^ (53 - (-e).toNat)) * 2 ^ (-e).toNat
          ≤ 2 * rheDiv (100 * m) (2 ^ (-e).toNat) * 2 ^ (-e).toNat :=
        Nat.mul_le_mul_right _ (by omega)
      have ha : 2 * (100 * 2 ^ (53 - (-e).toNat)) * 2 ^ (-e).toNat = 200 * 2 ^ 53 := by
        calc 2 * (100 * 2 ^ (53 - (-e).toNat)) * 2 ^ (-e).toNat
            = 200 * (2 ^ (53 - (-e).toNat) * 2 ^ (-e).toNat) := by ring
          _ = 200 * 2 ^ 53 := by rw [hsplit3]
      have hc200 : 200 * m + 200 ≤ 200 * 2 ^ 53 := by
        calc 200 * m + 200 = 200 * (m + 1) := by ring
          _ ≤ 200 * 2 ^ 53 := Nat.mul_le_mul_left _ (by omega)
      have hchain : 200 * 2 ^ 53 ≤ 200 * m + 64 := by
        calc 200 * 2 ^ 53 = 2 * (100 * 2 ^ (53 - (-e).toNat)) * 2 ^ (-e).toNat := ha.symm
          _ ≤ 2 * rheDiv (100 * m) (2 ^ (-e).toNat) * 2 ^ (-e).toNat := hb
          _ ≤ 2 * (100 * m) + 2 ^ (-e).toNat := e2
          _ ≤ 2 * (100 * m) + 64 := Nat.add_le_add_left hδ64 _
          _ = 200 * m + 64 := by ring
      omega
    have hnum : rheDiv (100 * m) (2 ^ (-e).toNat) ≠ 0 := by
      have : 0 < 100 * 2 ^ (52 - (-e).toNat) := by positivity
      omega
    have hilog : ilog2Rat (rheDiv (100 * m) (2 ^ (-e).toNat)) 100 = e + 52 := by
      apply ilog2Rat_of_pow2LE (Nat.pos_of_ne_zero hnum) (by norm_num)
      · unfold pow2LE
        rw [if_pos (show (0:Int) ≤ e + 52 from by omega)]
        rw [show (e + 52).toNat = 52 - (-e).toNat from by omega]
        exact decide_eq_true hlow
      · unfold pow2LE
        rw [if_pos (show (0:Int) ≤ e + 52 + 1 from by omega)]
        rw [show (e + 52 + 1).toNat = 53 - (-e).toNat from by omega]
        apply decide_eq_false
        omega
    have hsc : scaleDiv (rheDiv (100 * m) (2 ^ (-e).toNat)) 100 e = m := by
      unfold scaleDiv
      rw [if_neg he0]
      apply rheDiv_unique _ _ _ (by norm_num)
      · calc 2 * (rheDiv (100 * m) (2 ^ (-e).toNat) * 2 ^ (-e).toNat)
            = 2 * rheDiv (100 * m) (2 ^ (-e).toNat) * 2 ^ (-e).toNat := by ring
          _ ≤ 2 * (100 * m) + 2 ^ (-e).toNat := e2
          _ ≤ 2 * (100 * m) + 64 := Nat.add_le_add_left hδ64 _
          _ < 2 * (100 * m) + 100 := Nat.add_lt_add_left (by norm_num) _
          _ = 2 * m * 100 + 100 := by ring
      · calc 2 * m * 100 = 2 * (100 * m) := by ring
          _ ≤ 2 * rheDiv (100 * m) (2 ^ (-e).toNat) * 2 ^ (-e).toNat + 2 ^ (-e).toNat := e1
          _ ≤ 2 * rheDiv (100 * m) (2 ^ (-e).toNat) * 2 ^ (-e).toNat + 64 :=
              Nat.add_le_add_left hδ64 _
          _ < 2 * rheDiv (100 * m) (2 ^ (-e).toNat) * 2 ^ (-e).toNat + 100 :=
              Nat.add_lt_add_left (by norm_num) _
          _ = 2 * (rheDiv (100 * m) (2 ^ (-e).toNat) * 2 ^ (-e).toNat) + 100 := by ring
    rw [hcents]
    exact roundPos_eq_fin _ _ e m hnum hilog (by omega) (by omega) hsc (ne_of_lt hm2)

/-- `.2f` re-rendering is idempotent: formatting `float(f"{x:.2f}")`
to two decimals reproduces `f"{x:.2f}"`, for every canonical finite
float (normal or subnormal). -/
lemma fmt2_float_roundtrip (neg : Bool) (m : Nat) (e : Int)
    (hcanon : (2 ^ 52 ≤ m ∧ m < 2 ^ 53 ∧ -1074 ≤ e ∧ e ≤ 971)
      ∨ (e = -1074 ∧ m < 2 ^ 52)) :
    fmt2 (withSign neg (roundPos (cents m e) 100)) = fmt2 (.fin neg m e) := by
  by_cases he : -6 ≤ e
  · rcases hcanon with ⟨hm1, hm2, _, he2⟩ | ⟨hee, _⟩
    · rw [roundPos_cents_exact m e hm1 hm2 he he2]
      cases neg <;> rfl
    · omega
  · push_neg at he
    have hm53 : m < 2 ^ 53 := by
      rcases hcanon with ⟨_, hm2, _, _⟩ | ⟨_, hm2⟩
      · exact hm2
      · have h5253 : (2:Nat) ^ 52 < 2 ^ 53 := by norm_num
        omega
    obtain ⟨m', e', hround, hceq⟩ :=
      roundPos_cents_inv (cents m e) (cents_lt_of_small_exp m e hm53 (by omega))
    rw [hround]
    show fmt2 (.fin neg m' e') = fmt2 (.fin neg m e)
    simp only [fmt2]
    rw [hceq]

/-! ## Character-class facts for parsing back rendered numbers -/

lemma isAsciiDigit_toNat {c : Char} (h : isAsciiDigit c = true) :
    48 ≤ c.toNat ∧ c.toNat ≤ 57 := by
  simp only [isAsciiDigit, Bool.and_eq_true, decide_eq_true_eq] at h
  obtain ⟨h1, h2⟩ := h
  rw [Char.le_def] at h1 h2
  exact ⟨h1, h2⟩

lemma toLower_of_lt65 {c : Char} (h : c.toNat < 65) : c.toLower = c := by
  unfold Char.toLower
  rw [if_neg]
  omega

lemma isPyWS_toNat {c : Char} (h : isPyWS c = true) : c.toNat < 48 := by
  simp only [isPyWS, Bool.or_eq_true, decide_eq_true_eq] at h
  rcases h with ((((h | h) | h) | h) | h) | h <;> subst h <;> decide

lemma digit_not_ws {c : Char} (h : isAsciiDigit c = true) : isPyWS c = false := by
  cases hws : isPyWS c
  · rfl
  · have h1 := isPyWS_toNat hws
    have h2 := (isAsciiDigit_toNat h).1
    omega

lemma digit_toLower {c : Char} (h : isAsciiDigit c = true) : c.toLower = c :=
  toLower_of_lt65 (by have := (isAsciiDigit_toNat h).2; omega)

lemma digit_ne {c x : Char} (h : isAsciiDigit c = true)
    (hx : isAsciiDigit x = false) : c ≠ x := by
  intro he
  subst he
  rw [h] at hx
  simp at hx

lemma dropWhile_eq_self_of {p : Char → Bool} {l : List Char}
    (h : ∀ c ∈ l, p c = false) : l.dropWhile p = l := by
  cases l with
  | nil => rfl
  | cons c r =>
    rw [List.dropWhile_cons, h c (List.mem_cons_self c r)]
    simp

lemma stripList_id {l : List Char} (h : ∀ c ∈ l, isPyWS c = false) :
    stripList l = l := by
  unfold stripList
  rw [dropWhile_eq_self_of h,
    dropWhile_eq_self_of (fun c hc => h c (List.mem_reverse.mp hc)),
    List.reverse_reverse]

lemma map_toLower_id {l : List Char} (h : ∀ c ∈ l, c.toNat < 65) :
    l.map Char.toLower = l := by
  induction l with
  | nil => rfl
  | cons c r ih =>
    rw [List.map_cons, toLower_of_lt65 (h c (List.mem_cons_self c r)),
      ih (fun x hx => h x (List.mem_cons_of_mem c hx))]

lemma natDigits_ne_nil (n : Nat) : natDigits n ≠ [] := by
  unfold natDigits natDigitsAux
  by_cases hn : n < 10 <;> simp [hn]

lemma pad2_length : ∀ n, n < 100 → (pad2 n).length = 2 := by decide

lemma digitGroup_digits {l : List Char} (h : ∀ c ∈ l, isAsciiDigit c = true) :
    digitGroup l = some l := by
  match l with
  | [] => rfl
  | c :: r =>
    have hcd := h c (List.mem_cons_self c r)
    have hcne : c ≠ '_' := digit_ne hcd (by decide)
    rw [show digitGroup (c :: r)
        = (if ((decide ((c :: r).head? ≠ some '_')
              && decide ((c :: r).getLast? ≠ some '_')
              && (c :: r).all fun x => isAsciiDigit x || decide (x = '_'))
            && ((c :: r).zip (c :: r).tail).all
              fun p => !(decide (p.1 = '_') && decide (p.2 = '_'))) = true
          then some (List.filter isAsciiDigit (c :: r)) else none) from rfl]
    rw [if_pos]
    · rw [List.filter_eq_self.mpr h]
    · simp only [Bool.and_eq_true, decide_eq_true_eq, List.all_eq_true]
      refine ⟨⟨⟨?_, ?_⟩, ?_⟩, ?_⟩
      · simp [hcne]
      · intro hcon
        have hmem : '_' ∈ c :: r := List.mem_of_mem_getLast? hcon
        have := h _ hmem
        exact absurd this (by decide)
      · intro x hx
        rw [h x hx]
        rfl
      · intro p hp
        have h1 := (List.of_mem_zip hp).1
        have hne : p.1 ≠ '_' := digit_ne (h _ h1) (by decide)
        simp [hne]

/-- `parseSign` leaves a list alone when its head is not a sign. -/
lemma parseSign_other {c : Char} (h1 : c ≠ '-') (h2 : c ≠ '+') (r : List Char) :
    parseSign (c :: r) = (false, c :: r) := by
  unfold parseSign
  split <;> simp_all

/-- Parsing the `.2f` rendering of a finite float yields the 2-decimal
value `cents/100` rounded back to binary64, with the original sign. -/
lemma parse_fmt2 (neg : Bool) (m : Nat) (e : Int) :
    parsePyFloat (fmt2 (.fin neg m e))
      = some (withSign neg (roundPos (cents m e) 100)) := by
  show parsePyFloat
      ⟨if neg then
        '-' :: (natDigits (cents m e / 100) ++ '.' :: pad2 (cents m e % 100))
      else natDigits (cents m e / 100) ++ '.' :: pad2 (cents m e % 100)⟩
    = some (withSign neg (roundPos (cents m e) 100))
  generalize cents m e = k
  have hk100 : k % 100 < 100 := Nat.mod_lt _ (by norm_num)
  have hipd : ∀ c ∈ natDigits (k / 100), isAsciiDigit c = true :=
    fun c hc => natDigits_digits hc
  have hfpd : ∀ c ∈ pad2 (k % 100), isAsciiDigit c = true :=
    fun c hc => pad2_digits hc
  have hbodyd : ∀ c ∈ natDigits (k / 100) ++ '.' :: pad2 (k % 100),
      isAsciiDigit c = true ∨ c = '.' := by
    intro c hc
    rcases List.mem_append.mp hc with hc | hc
    · exact Or.inl (hipd c hc)
    · rcases List.mem_cons.mp hc with hc | hc
      · exact Or.inr hc
      · exact Or.inl (hfpd c hc)
  have hbody65 : ∀ c ∈ natDigits (k / 100) ++ '.' :: pad2 (k % 100), c.toNat < 65 := by
    intro c hc
    rcases hbodyd c hc with hd | hd
    · have := (isAsciiDigit_toNat hd).2
      omega
    · subst hd
      decide
  have hbodyws : ∀ c ∈ natDigits (k / 100) ++ '.' :: pad2 (k % 100),
      isPyWS c = false := by
    intro c hc
    rcases hbodyd c hc with hd | hd
    · exact digit_not_ws hd
    · subst hd
      decide
  have hdotip : '.' ∉ natDigits (k / 100) := by
    intro hc
    exact absurd (hipd _ hc) (by decide)
  have hdotfp : '.' ∉ pad2 (k % 100) := by
    intro hc
    exact absurd (hfpd _ hc) (by decide)
  have hebody : 'e' ∉ natDigits (k / 100) ++ '.' :: pad2 (k % 100) := by
    intro hc
    rcases hbodyd _ hc with hd | hd
    · exact absurd hd (by decide)
    · exact absurd hd (by decide)
  have hmant : parseMantissa (natDigits (k / 100) ++ '.' :: pad2 (k % 100))
      = some (k, 2) := by
    unfold parseMantissa
    rw [splitSep_append _ hdotip, splitSep_no_sep hdotfp]
    dsimp only []
    rw [digitGroup_digits hipd, digitGroup_digits hfpd]
    have hipne : (natDigits (k / 100)).isEmpty = false := by
      cases hip : natDigits (k / 100) with
      | nil => exact absurd hip (natDigits_ne_nil _)
      | cons d ds => rfl
    dsimp only [Option.bind_eq_bind, Option.some_bind]
    rw [hipne]
    simp only [Bool.false_and, Bool.false_eq_true, if_false]
    rw [natOfDigits_natDigits, natOfDigits_pad2, pad2_length _ hk100]
    congr 1
    rw [Prod.mk.injEq]
    constructor
    · norm_num
      omega
    · rfl
  obtain ⟨d, ds, hip⟩ :
      ∃ d ds, natDigits (k / 100) = d :: ds := by
    cases hip : natDigits (k / 100) with
    | nil => exact absurd hip (natDigits_ne_nil _)
    | cons d ds => exact ⟨d, ds, rfl⟩
  have hd : isAsciiDigit d = true := hipd d (by rw [hip]; exact List.mem_cons_self d ds)
  have hbody_cons : natDigits (k / 100) ++ '.' :: pad2 (k % 100)
      = d :: (ds ++ '.' :: pad2 (k % 100)) := by rw [hip]; rfl
  have hnotinf : ¬ ((decide (d :: (ds ++ '.' :: pad2 (k % 100)) = ['i', 'n', 'f'])
        || decide (d :: (ds ++ '.' :: pad2 (k % 100))
          = ['i', 'n', 'f', 'i', 'n', 'i', 't', 'y'])) = true) := by
    have hdi : d ≠ 'i' := digit_ne hd (by decide)
    simp [hdi]
  have hnotnan : ¬ (d :: (ds ++ '.' :: pad2 (k % 100)) = ['n', 'a', 'n']) := by
    have hdn : d ≠ 'n' := digit_ne hd (by decide)
    simp [hdn]
  cases neg
  · rw [if_neg (by simp : ¬ false = true)]
    simp only [parsePyFloat]
    simp only [stripList_id hbodyws, map_toLower_id hbody65]
    simp only [hbody_cons]
    simp only [parseSign_other (digit_ne hd (by decide)) (digit_ne hd (by decide))]
    rw [if_neg hnotinf, if_neg hnotnan]
    simp only [← hbody_cons]
    rw [splitSep_no_sep hebody]
    dsimp only []
    rw [hmant]
    dsimp only [Option.bind_eq_bind, Option.some_bind]
    unfold decValue
    rw [if_neg (show ¬ (0:Int) ≤ -((2:Nat) : Int) from by omega)]
    norm_num
    rfl
  · rw [if_pos rfl]
    simp only [parsePyFloat]
    simp only [stripList_id (show ∀ c ∈ '-' :: (natDigits (k / 100) ++ '.' :: pad2 (k % 100)),
        isPyWS c = false from by
      intro c hc
      rcases List.mem_cons.mp hc with hc | hc
      · subst hc; decide
      · exact hbodyws c hc)]
    simp only [map_toLower_id (show ∀ c ∈ '-' :: (natDigits (k / 100) ++ '.' :: pad2 (k % 100)),
        c.toNat < 65 from by
      intro c hc
      rcases List.mem_cons.mp hc with hc | hc
      · subst hc; decide
      · exact hbody65 c hc)]
    simp only [show parseSign ('-' :: (natDigits (k / 100) ++ '.' :: pad2 (k % 100)))
        = (true, natDigits (k / 100) ++ '.' :: pad2 (k % 100)) from rfl]
    simp only [hbody_cons]
    rw [if_neg hnotinf, if_neg hnotnan]
    simp only [← hbody_cons]
    rw [splitSep_no_sep hebody]
    dsimp only []
    rw [hmant]
    dsimp only [Option.bind_eq_bind, Option.some_bind]
    unfold decValue
    rw [if_neg (show ¬ (0:Int) ≤ -((2:Nat) : Int) from by omega)]
    norm_num
    rfl

/-! ## `strptime` inverts `strftime` for four-digit years -/

lemma natDigitsAux_len1 (f n : Nat) (hf : 0 < f) (hn : n < 10) :
    (natDigitsAux f n).length = 1 := by
  cases f with
  | zero => omega
  | succ g =>
    unfold natDigitsAux
    rw [if_pos hn]
    rfl

lemma natDigitsAux_len2 (f n : Nat) (hf : n < f) (h1 : 10 ≤ n) (h2 : n < 100) :
    (natDigitsAux f n).length = 2 := by
  cases f with
  | zero => omega
  | succ g =>
    unfold natDigitsAux
    rw [if_neg (by omega)]
    rw [List.length_append, natDigitsAux_len1 g (n / 10) (by omega) (by omega)]
    rfl

lemma natDigitsAux_len3 (f n : Nat) (hf : n < f) (h1 : 100 ≤ n) (h2 : n < 1000) :
    (natDigitsAux f n).length = 3 := by
  cases f with
  | zero => omega
  | succ g =>
    unfold natDigitsAux
    rw [if_neg (by omega)]
    rw [List.length_append, natDigitsAux_len2 g (n / 10) (by omega) (by omega) (by omega)]
    rfl

lemma natDigits_len4 (y : Nat) (h1 : 1000 ≤ y) (h2 : y ≤ 9999) :
    (natDigits y).length = 4 := by
  unfold natDigits natDigitsAux
  rw [if_neg (by omega)]
  rw [List.length_append, natDigitsAux_len3 y (y / 10) (by omega) (by omega) (by omega)]
  rfl

lemma yearTok_natDigits (y : Nat) (h1 : 1000 ≤ y) (h2 : y ≤ 9999) :
    yearTok (natDigits y) = some y := by
  have hlen : (natDigits y).length = 4 := natDigits_len4 y h1 h2
  have hall : (natDigits y).all isAsciiDigit = true := by
    rw [List.all_eq_true]
    intro c hc
    exact natDigits_digits hc
  unfold yearTok
  rw [if_pos ⟨hlen, hall⟩, natOfDigits_natDigits]

lemma monthTok_pad2 : ∀ m, m < 13 → 1 ≤ m → monthTok (pad2 m) = some m := by decide

lemma dayTok_pad2 : ∀ d, d < 32 → 1 ≤ d → dayTok (pad2 d) = some d := by decide

lemma daysInMonth_le (y m : Nat) : daysInMonth y m ≤ 31 := by
  unfold daysInMonth
  split
  · split <;> norm_num
  · split <;> norm_num

/-- A valid date with a four-digit year survives the
`strftime`-then-`strptime` round trip intact. -/
lemma pyStrptimeDate_fmtDate (dt : PyDate)
    (hy1 : 1000 ≤ dt.year) (hy2 : dt.year ≤ 9999)
    (hm : 1 ≤ dt.month ∧ dt.month ≤ 12)
    (hd : 1 ≤ dt.day ∧ dt.day ≤ daysInMonth dt.year dt.month) :
    pyStrptimeDate (fmtDate dt) = some dt := by
  have hd31 : dt.day ≤ 31 := le_trans hd.2 (daysInMonth_le dt.year dt.month)
  have hlen4 : (natDigits dt.year).length = 4 := natDigits_len4 dt.year hy1 hy2
  unfold pyStrptimeDate fmtDate
  rw [show (String.mk (natDigits dt.year ++ '-' :: pad2 dt.month ++ '-' :: pad2 dt.day)).data
      = natDigits dt.year ++ '-' :: (pad2 dt.month ++ '-' :: pad2 dt.day) from by simp]
  rw [splitSep_append _ (dash_not_mem_natDigits dt.year),
    splitSep_append _ (dash_not_mem_pad2 dt.month),
    splitSep_no_sep (dash_not_mem_pad2 dt.day)]
  dsimp only []
  rw [yearTok_natDigits dt.year hy1 hy2,
    monthTok_pad2 dt.month (by omega) hm.1,
    dayTok_pad2 dt.day (by omega) hd.1]
  dsimp only [Option.bind_eq_bind, Option.some_bind]
  rw [if_pos ⟨by omega, hd.1, hd.2⟩]

/-- C6 counterexample: summing 10000 records of amount `0.10` in
`monthly_totals` does NOT yield exactly 1000 — the accumulation is binary
floating point, the table cell holds `8796093022209397 * 2^(-43)`, whose
exact rational value differs from 1000 and which is not even the float
closest to 1000 (`float(1000)`); no fixed-point/integer-cent arithmetic
is involved. -/
theorem monthly_totals_float_drift :
    monthly_totals_table (List.replicate 10000 sumRec)
      = [("2024-01", [(some "Food", PyFloat.fin false 8796093022209397 (-43))])]
    ∧ pyVal (PyFloat.fin false 8796093022209397 (-43)) ≠ 1000
    ∧ PyFloat.fin false 8796093022209397 (-43) ≠ roundPos 1000 1 := by
  refine ⟨monthly_totals_tenth_table, ?_, ?_⟩
  · have hq : pyVal (PyFloat.fin false 8796093022209397 (-43))
        = 8796093022209397 * qpow2 (-43) := by simp [pyVal]
    rw [hq, show ((-43 : Int)) = -((43 : Nat) : Int) from by norm_num, qpow2_neg_natCast]
    intro hcon
    norm_num at hcon
  · decide

/-- C6 (amended): amounts are accumulated with binary64 `float` addition,
not fixed-point; over 10000 records of amount `0.10` the table cell is
exactly `8796093022209397 * 2^(-43)` = `1000.0000000000015916…`, a value
perturbed away from 1000 by accumulated rounding error, which nevertheless
formats to `"1000.00"` at the 2-decimal presentation boundary. -/
theorem monthly_totals_float_sum_value :
    monthly_totals_table (List.replicate 10000 sumRec)
      = [("2024-01", [(some "Food", PyFloat.fin false 8796093022209397 (-43))])]
    ∧ pyVal (PyFloat.fin false 8796093022209397 (-43)) = 8796093022209397 / 2 ^ 43
    ∧ fmt2 (PyFloat.fin false 8796093022209397 (-43)) = "1000.00" := by
  refine ⟨monthly_totals_tenth_table, ?_, ?_⟩
  · have hq : pyVal (PyFloat.fin false 8796093022209397 (-43))
        = 8796093022209397 * qpow2 (-43) := by simp [pyVal]
    rw [hq, show ((-43 : Int)) = -((43 : Nat) : Int) from by norm_num, qpow2_neg_natCast]
    norm_num
  · decide

/-! ## The CSV reader on quote-free rows -/

set_option maxHeartbeats 800000 in
lemma csvRun_inField_plain (c : Char) (hc : plainChar c)
    (cs : List Char) (f : List Char) (r : List String) (rows : List (List String)) :
    csvRun (c :: cs) .inField f r rows = csvRun cs .inField (c :: f) r rows := by
  obtain ⟨h1, h2, h3, h4⟩ := hc
  rw [csvRun.eq_def]
  split <;> rename_i hl hm <;>
    first
    | exact absurd hm (by decide)
    | exact absurd hl (List.cons_ne_nil _ _)
    | (rw [List.cons.injEq] at hl; exact absurd hl.1 h1)
    | (rw [List.cons.injEq] at hl; exact absurd hl.1 h2)
    | (rw [List.cons.injEq] at hl; exact absurd hl.1 h3)
    | (rw [List.cons.injEq] at hl; obtain ⟨rfl, rfl⟩ := hl; rw [if_neg h4])
    | (rw [List.cons.injEq] at hl; obtain ⟨rfl, rfl⟩ := hl; rfl)

set_option maxHeartbeats 800000 in
lemma csvRun_fieldStart_plain (c : Char) (hc : plainChar c)
    (cs : List Char) (f : List Char) (r : List String) (rows : List (List String)) :
    csvRun (c :: cs) .fieldStart f r rows = csvRun cs .inField [c] r rows := by
  obtain ⟨h1, h2, h3, h4⟩ := hc
  rw [csvRun.eq_def]
  split <;> rename_i hl hm <;>
    first
    | exact absurd hm (by decide)
    | exact absurd hl (List.cons_ne_nil _ _)
    | (rw [List.cons.injEq] at hl; exact absurd hl.1 h1)
    | (rw [List.cons.injEq] at hl; exact absurd hl.1 h2)
    | (rw [List.cons.injEq] at hl; exact absurd hl.1 h3)
    | (rw [List.cons.injEq] at hl; obtain ⟨rfl, rfl⟩ := hl; rw [if_neg h4])
    | (rw [List.cons.injEq] at hl; obtain ⟨rfl, rfl⟩ := hl; rfl)

set_option maxHeartbeats 800000 in
lemma csvRun_recStart_plain (c : Char) (hc : plainChar c)
    (cs : List Char) (f : List Char) (r : List String) (rows : List (List String)) :
    csvRun (c :: cs) .recStart f r rows = csvRun cs .inField [c] [] rows := by
  obtain ⟨h1, h2, h3, h4⟩ := hc
  rw [csvRun.eq_def]
  split <;> rename_i hl hm <;>
    first
    | exact absurd hm (by decide)
    | exact absurd hl (List.cons_ne_nil _ _)
    | (rw [List.cons.injEq] at hl; exact absurd hl.1 h1)
    | (rw [List.cons.injEq] at hl; exact absurd hl.1 h2)
    | (rw [List.cons.injEq] at hl; exact absurd hl.1 h3)
    | (rw [List.cons.injEq] at hl; obtain ⟨rfl, rfl⟩ := hl; rw [if_neg h4])
    | (rw [List.cons.injEq] at hl; obtain ⟨rfl, rfl⟩ := hl; rfl)

lemma csvRun_fieldStart_comma_nil (cs : List Char) (r : List String)
    (rows : List (List String)) :
    csvRun (',' :: cs) .fieldStart [] r rows
      = csvRun cs .fieldStart [] ("" :: r) rows := rfl

lemma csvRun_fieldStart_crlf_nil (cs : List Char) (r : List String)
    (rows : List (List String)) :
    csvRun ('\r' :: '\n' :: cs) .fieldStart [] r rows
      = csvRun cs .recStart [] [] (("" :: r).reverse :: rows) := rfl

lemma csvRun_inField_comma (cs : List Char) (f : List Char) (r : List String)
    (rows : List (List String)) :
    csvRun (',' :: cs) .inField f r rows
      = csvRun cs .fieldStart [] (⟨f.reverse⟩ :: r) rows := rfl

lemma csvRun_inField_crlf (cs : List Char) (f : List Char) (r : List String)
    (rows : List (List String)) :
    csvRun ('\r' :: '\n' :: cs) .inField f r rows
      = csvRun cs .recStart [] [] ((⟨f.reverse⟩ :: r).reverse :: rows) := rfl

lemma csvRun_inField_chunk (l : List Char) (hl : ∀ c ∈ l, plainChar c) :
    ∀ (cs : List Char) (f : List Char) (r : List String) (rows : List (List String)),
    csvRun (l ++ cs) .inField f r rows = csvRun cs .inField (l.reverse ++ f) r rows := by
  induction l with
  | nil => intro cs f r rows; rfl
  | cons c l ih =>
    intro cs f r rows
    rw [List.cons_append, csvRun_inField_plain c (hl c (List.mem_cons_self c l)) _ _ _ _,
      ih (fun x hx => hl x (List.mem_cons_of_mem c hx)) cs (c :: f) r rows]
    simp

lemma csvRun_field_comma (l : List Char) (hl : ∀ c ∈ l, plainChar c)
    (cs : List Char) (r : List String) (rows : List (List String)) :
    csvRun (l ++ ',' :: cs) .fieldStart [] r rows
      = csvRun cs .fieldStart [] (⟨l⟩ :: r) rows := by
  cases l with
  | nil => exact csvRun_fieldStart_comma_nil cs r rows
  | cons c l =>
    rw [List.cons_append, csvRun_fieldStart_plain c (hl c (List.mem_cons_self c l)) _ _ _ _,
      csvRun_inField_chunk l (fun x hx => hl x (List.mem_cons_of_mem c hx)) _ _ _ _,
      csvRun_inField_comma]
    simp

lemma csvRun_field_crlf (l : List Char) (hl : ∀ c ∈ l, plainChar c)
    (cs : List Char) (r : List String) (rows : List (List String)) :
    csvRun (l ++ '\r' :: '\n' :: cs) .fieldStart [] r rows
      = csvRun cs .recStart [] [] ((⟨l⟩ :: r).reverse :: rows) := by
  cases l with
  | nil => exact csvRun_fieldStart_crlf_nil cs r rows
  | cons c l =>
    rw [List.cons_append, csvRun_fieldStart_plain c (hl c (List.mem_cons_self c l)) _ _ _ _,
      csvRun_inField_chunk l (fun x hx => hl x (List.mem_cons_of_mem c hx)) _ _ _ _,
      csvRun_inField_crlf]
    simp

/-- One quote-free four-field CRLF-terminated record, consumed from the
record-start state: it lands back in the record-start state with the
four fields appended. -/
lemma csvRun_row4 (l1 l2 l3 l4 : List Char)
    (h1 : ∀ c ∈ l1, plainChar c) (h2 : ∀ c ∈ l2, plainChar c)
    (h3 : ∀ c ∈ l3, plainChar c) (h4 : ∀ c ∈ l4, plainChar c)
    (hne : l1 ≠ []) (rest : List Char) (g1 : List Char) (g2 : List String)
    (rows : List (List String)) :
    csvRun (l1 ++ ',' :: (l2 ++ ',' :: (l3 ++ ',' :: (l4 ++ '\r' :: '\n' :: rest))))
        .recStart g1 g2 rows
      = csvRun rest .recStart [] [] ([⟨l1⟩, ⟨l2⟩, ⟨l3⟩, ⟨l4⟩] :: rows) := by
  cases l1 with
  | nil => exact absurd rfl hne
  | cons c l1 =>
    rw [List.cons_append, csvRun_recStart_plain c (h1 c (List.mem_cons_self c l1)) _ _ _ _,
      csvRun_inField_chunk l1 (fun x hx => h1 x (List.mem_cons_of_mem c hx)) _ _ _ _,
      csvRun_inField_comma, csvRun_field_comma l2 h2 _ _ _,
      csvRun_field_comma l3 h3 _ _ _, csvRun_field_crlf l4 h4 _ _ _]
    simp

/-! ## The CSV writer on quote-free rows -/

/-- The four tested characters of `quoteNeeded` are exactly the
non-`plainChar` ones. -/
lemma quoteNeeded_false_iff (s : String) :
    quoteNeeded s = false ↔ ∀ c ∈ s.data, plainChar c := by
  simp only [quoteNeeded, plainChar, List.any_eq_false, Bool.or_eq_true, decide_eq_true_eq,
    not_or]
  constructor <;> intro h c hc <;> have hh := h c hc <;> tauto

lemma plainChar_of_digit {c : Char} (h : isAsciiDigit c = true) : plainChar c := by
  refine ⟨fun hc => ?_, fun hc => ?_, fun hc => ?_, fun hc => ?_⟩ <;>
    (subst hc; exact absurd h (by decide))

lemma fmtDate_plain (d : PyDate) : ∀ c ∈ (fmtDate d).data, plainChar c := by
  intro c hc
  have hc2 : c ∈ natDigits d.year ++ '-' :: pad2 d.month ++ '-' :: pad2 d.day := hc
  simp only [List.mem_append, List.mem_cons] at hc2
  rcases hc2 with (h | rfl | h) | rfl | h
  · exact plainChar_of_digit (natDigits_digits h)
  · exact ⟨by decide, by decide, by decide, by decide⟩
  · exact plainChar_of_digit (pad2_digits h)
  · exact ⟨by decide, by decide, by decide, by decide⟩
  · exact plainChar_of_digit (pad2_digits h)

lemma fmt2_plain (a : PyFloat) : ∀ c ∈ (fmt2 a).data, plainChar c := by
  intro c hc
  cases a with
  | nan => exact (by decide : ∀ x ∈ (fmt2 PyFloat.nan).data, plainChar x) c hc
  | inf neg =>
    cases neg with
    | false => exact (by decide : ∀ x ∈ (fmt2 (PyFloat.inf false)).data, plainChar x) c hc
    | true => exact (by decide : ∀ x ∈ (fmt2 (PyFloat.inf true)).data, plainChar x) c hc
  | fin neg m e =>
    cases neg with
    | false =>
      have hc2 : c ∈ natDigits (cents m e / 100) ++ '.' :: pad2 (cents m e % 100) := hc
      simp only [List.mem_append, List.mem_cons] at hc2
      rcases hc2 with h | rfl | h
      · exact plainChar_of_digit (natDigits_digits h)
      · exact ⟨by decide, by decide, by decide, by decide⟩
      · exact plainChar_of_digit (pad2_digits h)
    | true =>
      have hc2 : c ∈ '-' :: (natDigits (cents m e / 100) ++ '.' :: pad2 (cents m e % 100)) :=
        hc
      simp only [List.mem_append, List.mem_cons] at hc2
      rcases hc2 with rfl | h | rfl | h
      · exact ⟨by decide, by decide, by decide, by decide⟩
      · exact plainChar_of_digit (natDigits_digits h)
      · exact ⟨by decide, by decide, by decide, by decide⟩
      · exact plainChar_of_digit (pad2_digits h)

lemma fmtDate_data_ne_nil (d : PyDate) : (fmtDate d).data ≠ [] := by
  intro h
  have h2 : natDigits d.year ++ '-' :: pad2 d.month ++ '-' :: pad2 d.day = [] := h
  rw [List.append_eq_nil] at h2
  exact absurd h2.2 (List.cons_ne_nil _ _)

/-- `writerow` on a quote-free four-field record renders the fields
verbatim, comma-separated, CRLF-terminated. -/
lemma writeRow4_data (f1 f2 f3 f4 : String)
    (h1 : quoteNeeded f1 = false) (h2 : quoteNeeded f2 = false)
    (h3 : quoteNeeded f3 = false) (h4 : quoteNeeded f4 = false) :
    (writeRow [f1, f2, f3, f4]).data
      = f1.data ++ ',' :: (f2.data ++ ',' :: (f3.data ++ ',' :: (f4.data ++ ['\r', '\n']))) := by
  have hmap : [f1, f2, f3, f4].map (fun f =>
      if [f1, f2, f3, f4].length = 1 && f = "" then (⟨[quoteChar, quoteChar]⟩ : String)
      else quoteField f) = [f1, f2, f3, f4] := by
    simp [quoteField, h1, h2, h3, h4]
  unfold writeRow
  rw [hmap]
  rw [show String.intercalate "," [f1, f2, f3, f4]
      = ((f1 ++ "," ++ f2) ++ "," ++ f3) ++ "," ++ f4 from by
    simp [String.intercalate, String.intercalate.go]]
  simp only [String.data_append]
  simp [List.append_assoc]


/-! ## The CSV reader on quoted fields -/

lemma quoteField_eq_self {s : String} (h : quoteNeeded s = false) : quoteField s = s := by
  simp [quoteField, h]

lemma escQuotes_init (l : List Char) (init : List Char) :
    l.foldr (fun c acc => if c = quoteChar then quoteChar :: quoteChar :: acc else c :: acc) init
      = escQuotes l ++ init := by
  induction l with
  | nil => rfl
  | cons c l ih =>
    rw [List.foldr_cons, ih]
    rw [show escQuotes (c :: l)
        = if c = quoteChar then quoteChar :: quoteChar :: escQuotes l else c :: escQuotes l
      from rfl]
    by_cases hc : c = quoteChar
    · rw [if_pos hc, if_pos hc]
      rfl
    · rw [if_neg hc, if_neg hc]
      rfl

/-- A field the writer must quote renders as an opening quote, the
quote-doubled body, and a closing quote. -/
lemma quoteField_data_quoted {s : String} (h : quoteNeeded s = true) :
    (quoteField s).data = quoteChar :: (escQuotes s.data ++ [quoteChar]) := by
  unfold quoteField
  rw [if_pos h]
  show quoteChar :: s.data.foldr _ [quoteChar] = _
  rw [escQuotes_init]

lemma csvRun_fieldStart_quote (cs : List Char) (f : List Char) (r : List String)
    (rows : List (List String)) :
    csvRun (quoteChar :: cs) .fieldStart f r rows = csvRun cs .inQuoted [] r rows := rfl

lemma csvRun_inQuoted_escq (cs : List Char) (f : List Char) (r : List String)
    (rows : List (List String)) :
    csvRun (quoteChar :: quoteChar :: cs) .inQuoted f r rows
      = csvRun cs .inQuoted (quoteChar :: f) r rows := by
  rw [csvRun.eq_def]
  rfl

lemma csvRun_inQuoted_close_comma (cs : List Char) (f : List Char) (r : List String)
    (rows : List (List String)) :
    csvRun (quoteChar :: ',' :: cs) .inQuoted f r rows
      = csvRun cs .fieldStart [] (⟨f.reverse⟩ :: r) rows := by
  rw [csvRun.eq_def]
  rfl

lemma csvRun_inQuoted_close_crlf (cs : List Char) (f : List Char) (r : List String)
    (rows : List (List String)) :
    csvRun (quoteChar :: '\r' :: '\n' :: cs) .inQuoted f r rows
      = csvRun cs .recStart [] [] ((⟨f.reverse⟩ :: r).reverse :: rows) := by
  rw [csvRun.eq_def]
  rfl

set_option maxHeartbeats 800000 in
lemma csvRun_inQuoted_cons (c : Char) (hq : c ≠ quoteChar)
    (cs : List Char) (f : List Char) (r : List String) (rows : List (List String)) :
    csvRun (c :: cs) .inQuoted f r rows = csvRun cs .inQuoted (c :: f) r rows := by
  rw [csvRun.eq_def]
  split <;> rename_i hl hm <;>
    first
    | exact absurd hm (by decide)
    | exact absurd hl (List.cons_ne_nil _ _)
    | (rw [List.cons.injEq] at hl; obtain ⟨rfl, rfl⟩ := hl; rw [if_neg hq])
    | (rw [List.cons.injEq] at hl; obtain ⟨rfl, rfl⟩ := hl; rfl)

/-- Inside a quoted field, the whole escaped body is copied back
verbatim into the field buffer. -/
lemma csvRun_escQuotes_chunk (l : List Char) :
    ∀ (cs : List Char) (f : List Char) (r : List String) (rows : List (List String)),
    csvRun (escQuotes l ++ cs) .inQuoted f r rows
      = csvRun cs .inQuoted (l.reverse ++ f) r rows := by
  induction l with
  | nil => intro cs f r rows; rfl
  | cons c l ih =>
    intro cs f r rows
    by_cases hc : c = quoteChar
    · subst hc
      rw [show escQuotes (quoteChar :: l) = quoteChar :: quoteChar :: escQuotes l from by
        simp [escQuotes]]
      rw [List.cons_append, List.cons_append, csvRun_inQuoted_escq, ih]
      simp
    · rw [show escQuotes (c :: l) = c :: escQuotes l from by simp [escQuotes, hc]]
      rw [List.cons_append, csvRun_inQuoted_cons c hc, ih]
      simp

/-- One written field — quoted by the writer or not — consumed up to
the following comma. -/
lemma csvRun_qfield_comma (s : String) (cs : List Char) (r : List String)
    (rows : List (List String)) :
    csvRun ((quoteField s).data ++ ',' :: cs) .fieldStart [] r rows
      = csvRun cs .fieldStart [] (s :: r) rows := by
  by_cases hq : quoteNeeded s = true
  · rw [quoteField_data_quoted hq, List.cons_append, List.append_assoc,
      List.singleton_append, csvRun_fieldStart_quote, csvRun_escQuotes_chunk,
      csvRun_inQuoted_close_comma]
    simp only [List.append_nil, List.reverse_reverse]
  · have hq2 : quoteNeeded s = false := by simpa using hq
    rw [quoteField_eq_self hq2]
    exact csvRun_field_comma s.data ((quoteNeeded_false_iff s).mp hq2) cs r rows

/-- One written field consumed up to the record-ending CRLF. -/
lemma csvRun_qfield_crlf (s : String) (cs : List Char) (r : List String)
    (rows : List (List String)) :
    csvRun ((quoteField s).data ++ '\r' :: '\n' :: cs) .fieldStart [] r rows
      = csvRun cs .recStart [] [] ((s :: r).reverse :: rows) := by
  by_cases hq : quoteNeeded s = true
  · rw [quoteField_data_quoted hq, List.cons_append, List.append_assoc,
      List.singleton_append, csvRun_fieldStart_quote, csvRun_escQuotes_chunk,
      csvRun_inQuoted_close_crlf]
    simp only [List.append_nil, List.reverse_reverse]
  · have hq2 : quoteNeeded s = false := by simpa using hq
    rw [quoteField_eq_self hq2]
    exact csvRun_field_crlf s.data ((quoteNeeded_false_iff s).mp hq2) cs r rows

/-- `writerow` on any four-field record: each field rendered by
`quoteField`, comma-separated, CRLF-terminated. -/
lemma writeRow_quoteField_data (f1 f2 f3 f4 : String) :
    (writeRow [f1, f2, f3, f4]).data
      = (quoteField f1).data ++ ',' :: ((quoteField f2).data ++ ',' :: ((quoteField f3).data
          ++ ',' :: ((quoteField f4).data ++ ['\r', '\n']))) := by
  have hmap : [f1, f2, f3, f4].map (fun f =>
      if [f1, f2, f3, f4].length = 1 && f = "" then (⟨[quoteChar, quoteChar]⟩ : String)
      else quoteField f) = [quoteField f1, quoteField f2, quoteField f3, quoteField f4] := by
    simp
  unfold writeRow
  rw [hmap]
  rw [show String.intercalate "," [quoteField f1, quoteField f2, quoteField f3, quoteField f4]
      = ((quoteField f1 ++ "," ++ quoteField f2) ++ "," ++ quoteField f3) ++ ","
          ++ quoteField f4 from by
    simp [String.intercalate, String.intercalate.go]]
  simp only [String.data_append]
  simp [List.append_assoc]

/-- One four-field CRLF-terminated record whose first field is plain
and nonempty and whose other fields carry the writer's own rendering
(quoted when necessary), consumed from the record-start state. -/
lemma csvRun_row4q (l1 : List Char) (s2 s3 s4 : String)
    (h1 : ∀ c ∈ l1, plainChar c) (hne : l1 ≠ [])
    (rest : List Char) (g1 : List Char) (g2 : List String) (rows : List (List String)) :
    csvRun (l1 ++ ',' :: ((quoteField s2).data ++ ',' :: ((quoteField s3).data ++ ',' ::
        ((quoteField s4).data ++ '\r' :: '\n' :: rest)))) .recStart g1 g2 rows
      = csvRun rest .recStart [] [] ([⟨l1⟩, s2, s3, s4] :: rows) := by
  cases l1 with
  | nil => exact absurd rfl hne
  | cons c l1 =>
    rw [List.cons_append, csvRun_recStart_plain c (h1 c (List.mem_cons_self c l1)) _ _ _ _,
      csvRun_inField_chunk l1 (fun x hx => h1 x (List.mem_cons_of_mem c hx)) _ _ _ _,
      csvRun_inField_comma, csvRun_qfield_comma s2 _ _ _,
      csvRun_qfield_comma s3 _ _ _, csvRun_qfield_crlf s4 _ _ _]
    simp

/-! ## The write–read round trip -/

/-- Parsing the file produced by one `initialize_csv` and one appended
quote-free row gives back the header record and the four fields. -/
lemma parseCSV_expense_file (dte : PyDate) (a : PyFloat) (cat desc : String) :
    parseCSV (writeRow FIELDNAMES ++ expenseRow dte a cat desc)
      = [["date", "amount", "category", "description"], [fmtDate dte, fmt2 a, cat, desc]] := by
  have hrow2 : (expenseRow dte a cat desc).data
      = (fmtDate dte).data ++ ',' :: ((quoteField (fmt2 a)).data ++ ',' ::
          ((quoteField cat).data ++ ',' :: ((quoteField desc).data ++ ['\r', '\n']))) := by
    rw [show (expenseRow dte a cat desc).data
        = (quoteField (fmtDate dte)).data ++ ',' :: ((quoteField (fmt2 a)).data ++ ',' ::
            ((quoteField cat).data ++ ',' :: ((quoteField desc).data ++ ['\r', '\n'])))
      from writeRow_quoteField_data (fmtDate dte) (fmt2 a) cat desc]
    rw [quoteField_eq_self ((quoteNeeded_false_iff (fmtDate dte)).mpr (fmtDate_plain dte))]
  unfold parseCSV
  rw [String.data_append]
  have hH : (writeRow FIELDNAMES).data ++ (expenseRow dte a cat desc).data
      = "date".data ++ ',' :: ("amount".data ++ ',' :: ("category".data ++ ',' ::
          ("description".data ++ '\r' :: '\n' :: (expenseRow dte a cat desc).data))) := rfl
  rw [hH, csvRun_row4 "date".data "amount".data "category".data "description".data
    (by decide) (by decide) (by decide) (by decide) (by decide) _ _ _ _, hrow2,
    csvRun_row4q (fmtDate dte).data (fmt2 a) cat desc
      (fmtDate_plain dte) (fmtDate_data_ne_nil dte) _ _ _ _]
  rfl

/-- `DictReader` + the row loop of `read_expenses` on the one appended
row: every field comes back, the amount as `float(f"{a:.2f}")`. -/
lemma parseExpRow_fields (dte : PyDate) (neg : Bool) (m : Nat) (e : Int) (cat desc : String)
    (hy1 : 1000 ≤ dte.year) (hy2 : dte.year ≤ 9999)
    (hmo : 1 ≤ dte.month ∧ dte.month ≤ 12)
    (hdy : 1 ≤ dte.day ∧ dte.day ≤ daysInMonth dte.year dte.month) :
    parseExpRow ["date", "amount", "category", "description"]
        [fmtDate dte, fmt2 (.fin neg m e), cat, desc]
      = some ⟨dte, withSign neg (roundPos (cents m e) 100), some cat, some desc⟩ := by
  unfold parseExpRow
  rw [if_neg (List.cons_ne_nil _ _)]
  rw [show dictGet ["date", "amount", "category", "description"]
      [fmtDate dte, fmt2 (.fin neg m e), cat, desc] "amount"
      = some (some (fmt2 (.fin neg m e))) from rfl]
  dsimp only []
  rw [parse_fmt2]
  dsimp only []
  rw [show dictGet ["date", "amount", "category", "description"]
      [fmtDate dte, fmt2 (.fin neg m e), cat, desc] "date"
      = some (some (fmtDate dte)) from rfl]
  dsimp only []
  rw [pyStrptimeDate_fmtDate dte hy1 hy2 hmo hdy]
  rfl

/-- C4: for a valid input tuple — a date the validator accepts whose
year has four digits when rendered (1000–9999), an amount parsing to a
canonical finite binary64 float, and arbitrary category/description
(fields needing CSV quoting included) — `add_expense` on the freshly
initialized store appends exactly one row; `read_expenses` on the
resulting file yields exactly one record equal to the input up to
2-decimal rounding of the amount (the float of the correctly rounded
cents, `withSign neg (roundPos (cents m e) 100)`) and date
normalization; and the read-back record re-serializes to the
identical formatted row string. -/
theorem append_then_read_roundtrip
    (rawDate rawAmount rawCategory rawDescription : String)
    (dte : PyDate) (neg : Bool) (m : Nat) (e : Int)
    (hdate : pyStrptimeDate (pyStrip rawDate) = some dte)
    (hamt : parsePyFloat (pyStrip rawAmount) = some (.fin neg m e))
    (hcanon : (2 ^ 52 ≤ m ∧ m < 2 ^ 53 ∧ -1074 ≤ e ∧ e ≤ 971) ∨ (e = -1074 ∧ m < 2 ^ 52))
    (hy1 : 1000 ≤ dte.year) (hy2 : dte.year ≤ 9999)
    (hmo : 1 ≤ dte.month ∧ dte.month ≤ 12)
    (hdy : 1 ≤ dte.day ∧ dte.day ≤ daysInMonth dte.year dte.month) :
    add_expense (initialize_csv none) rawDate rawAmount rawCategory rawDescription
      = .ok (writeRow FIELDNAMES
          ++ expenseRow dte (.fin neg m e) (pyStrip rawCategory) (pyStrip rawDescription))
    ∧ read_expenses (some (writeRow FIELDNAMES
          ++ expenseRow dte (.fin neg m e) (pyStrip rawCategory) (pyStrip rawDescription)))
      = [⟨dte, withSign neg (roundPos (cents m e) 100),
          some (pyStrip rawCategory), some (pyStrip rawDescription)⟩]
    ∧ expenseRow dte (withSign neg (roundPos (cents m e) 100))
          (pyStrip rawCategory) (pyStrip rawDescription)
      = expenseRow dte (.fin neg m e) (pyStrip rawCategory) (pyStrip rawDescription) := by
  refine ⟨?_, ?_, ?_⟩
  · unfold add_expense
    rw [hdate, hamt]
    rfl
  · unfold read_expenses
    dsimp only []
    rw [parseCSV_expense_file dte _ _ _]
    dsimp only []
    simp only [List.filterMap_cons, List.filterMap_nil,
      parseExpRow_fields dte neg m e _ _ hy1 hy2 hmo hdy]
  · unfold expenseRow
    rw [fmt2_float_roundtrip neg m e hcanon]

/-- C4 witness: the valid tuple `(" 2024-01-15 ", " 12.345 ", "Food",
"soup, \"hot\"")` — the description needs CSV quoting — whose amount
is the binary64 float `6949617174986097 * 2^(-49)` and reads back as
`float("12.35")`. -/
theorem append_then_read_roundtrip_witness :
    pyStrptimeDate (pyStrip " 2024-01-15 ") = some ⟨2024, 1, 15⟩
    ∧ parsePyFloat (pyStrip " 12.345 ") = some (.fin false 6949617174986097 (-49))
    ∧ (add_expense (initialize_csv none) " 2024-01-15 " " 12.345 " "Food"
          ⟨['s', 'o', 'u', 'p', ',', ' ', quoteChar, 'h', 'o', 't', quoteChar]⟩
        = .ok (writeRow FIELDNAMES
            ++ expenseRow ⟨2024, 1, 15⟩ (.fin false 6949617174986097 (-49))
              (pyStrip "Food")
              (pyStrip ⟨['s', 'o', 'u', 'p', ',', ' ', quoteChar, 'h', 'o', 't', quoteChar]⟩))
      ∧ read_expenses (some (writeRow FIELDNAMES
            ++ expenseRow ⟨2024, 1, 15⟩ (.fin false 6949617174986097 (-49))
              (pyStrip "Food")
              (pyStrip ⟨['s', 'o', 'u', 'p', ',', ' ', quoteChar, 'h', 'o', 't', quoteChar]⟩)))
        = [⟨⟨2024, 1, 15⟩, withSign false (roundPos (cents 6949617174986097 (-49)) 100),
            some (pyStrip "Food"),
            some (pyStrip ⟨['s', 'o', 'u', 'p', ',', ' ', quoteChar, 'h', 'o', 't', quoteChar]⟩)⟩]
      ∧ expenseRow ⟨2024, 1, 15⟩ (withSign false (roundPos (cents 6949617174986097 (-49)) 100))
            (pyStrip "Food")
            (pyStrip ⟨['s', 'o', 'u', 'p', ',', ' ', quoteChar, 'h', 'o', 't', quoteChar]⟩)
        = expenseRow ⟨2024, 1, 15⟩ (.fin false 6949617174986097 (-49))
            (pyStrip "Food")
            (pyStrip ⟨['s', 'o', 'u', 'p', ',', ' ', quoteChar, 'h', 'o', 't', quoteChar]⟩)) :=
  ⟨by decide, by decide,
    append_then_read_roundtrip " 2024-01-15 " " 12.345 " "Food"
      ⟨['s', 'o', 'u', 'p', ',', ' ', quoteChar, 'h', 'o', 't', quoteChar]⟩ ⟨2024, 1, 15⟩
      false 6949617174986097 (-49) (by decide) (by decide)
      (Or.inl ⟨by norm_num, by norm_num, by norm_num, by norm_num⟩)
      (by norm_num) (by norm_num) ⟨by norm_num, by norm_num⟩ ⟨by norm_num, by decide⟩⟩

/-- C4 counterexample: the tuple `("0500-01-02", "1.00", "Food", "x")`
passes validation (a real calendar date in `YYYY-MM-DD` form, a finite
decimal amount) and is appended, but `read_expenses` on the resulting
file returns no record at all — `strftime("%Y")` renders year 500
without zero-padding, and `%Y` refuses the three-digit year on
re-parse, so the appended row is silently skipped rather than read
back equal to the input. -/
theorem append_then_read_small_year_lost :
    add_expense (initialize_csv none) "0500-01-02" "1.00" "Food" "x"
      = .ok (writeRow FIELDNAMES
          ++ expenseRow ⟨500, 1, 2⟩ (.fin false 4503599627370496 (-52)) "Food" "x")
    ∧ read_expenses (some (writeRow FIELDNAMES
          ++ expenseRow ⟨500, 1, 2⟩ (.fin false 4503599627370496 (-52)) "Food" "x")) = [] :=
  ⟨by decide, by decide⟩

end ExpenseTracker
